import Mathlib

/-
Verification of the ride-sharing discrete-event simulation.

The definitions below are a shallow embedding of the Python sources
(location.py, rider.py, driver.py, dispatcher.py, event.py, monitor.py,
simulation.py).  Python objects that are mutated through aliased
references (Rider and Driver instances) are modelled by an explicit
store: `SimState.riders` / `SimState.drivers` are the object heaps and
the dispatcher partitions hold object ids (indices into the heaps),
mirroring Python reference semantics.  Membership tests (`in`,
`.index`) use the structural equality defined by the classes'
`__eq__` methods, i.e. full record equality of the dereferenced
objects.  Machine integers are `Int` (Python ints are unbounded);
`round` is Python's banker's rounding, implemented exactly on the
rational n / d by `pyRound`.
-/

namespace RideSharing

/-- From location.py: `Location.__init__` stores row and column;
`Location.__eq__` is field equality. -/
structure Location where
  row : Int
  column : Int
deriving DecidableEq, Repr

/-- From location.py: `manhattan_distance(origin, destination)` returns
`abs(int(origin.row) - int(destination.row)) + abs(int(origin.column) - int(destination.column))`. -/
def manhattan_distance (origin destination : Location) : Int :=
  ((origin.row - destination.row).natAbs : Int) +
  ((origin.column - destination.column).natAbs : Int)

/-- Python's built-in `round` applied to the exact rational `n / d`
(`d ≠ 0`): round half to even.  `q` is the floor of the quotient and
`r` the remainder, so the fractional part is `r / d ∈ [0, 1)`. -/
def pyRound (n d : Int) : Int :=
  let q := Int.fdiv n d
  let r := n - q * d
  if 2 * r.natAbs < d.natAbs then q
  else if d.natAbs < 2 * r.natAbs then q + 1
  else if q % 2 = 0 then q else q + 1

/-- From location.py: `deserialize_location(location_str)` returns
`Location(location_str[0], location_str[2])` — the *characters* at
indices 0 and 2 of the token (an index error if the token is shorter
than 3 characters, hence the `Option`). -/
def deserialize_location (location_str : List Char) : Option (Char × Char) :=
  if h : 2 < location_str.length then
    some (location_str.get ⟨0, by omega⟩, location_str.get ⟨2, h⟩)
  else none

/-- From rider.py: the status constants WAITING, CANCELLED, SATISFIED. -/
inductive RStatus where
  | waiting
  | cancelled
  | satisfied
deriving DecidableEq, Repr

/-- From rider.py: `Rider.__init__`; `Rider.__eq__` compares identifier,
origin, destination, status and patience (full record equality). -/
structure Rider where
  identifier : String
  origin : Location
  destination : Location
  patience : Int
  status : RStatus := .waiting
deriving DecidableEq, Repr

/-- From driver.py: `Driver.__init__` sets identifier, location, speed,
`destination = None`, `is_idle = True`; `Driver.__eq__` compares all
five fields (full record equality). -/
structure Driver where
  identifier : String
  location : Option Location
  speed : Int
  destination : Option Location := none
  is_idle : Bool := true
deriving DecidableEq, Repr

instance : Inhabited Rider := ⟨⟨"", ⟨0, 0⟩, ⟨0, 0⟩, 0, .waiting⟩⟩

instance : Inhabited Driver := ⟨⟨"", none, 0, none, true⟩⟩

/-- From driver.py: `Driver.get_travel_time(destination)`: if the
destination, the driver's location and a non-zero speed are all
present, `round(manhattan_distance(self.location, destination) / self.speed)`,
else 0. -/
def Driver.get_travel_time (d : Driver) (destination : Option Location) : Int :=
  match destination, d.location with
  | some t, some l => if d.speed ≠ 0 then pyRound (manhattan_distance l t) d.speed else 0
  | _, _ => 0

/-- From monitor.py: the two activity categories RIDER and DRIVER. -/
inductive ActorKind where
  | rider
  | driver
deriving DecidableEq, Repr

/-- From monitor.py: the four activity descriptions REQUEST, CANCEL,
PICKUP, DROPOFF. -/
inductive ActKind where
  | request
  | cancel
  | pickup
  | dropoff
deriving DecidableEq, Repr

/-- From monitor.py: an `Activity` record together with the category it
was filed under.  The monitor's nested dictionary keyed by category and
identifier is modelled as the flat notification list in arrival order;
per-key lists are recovered by filtering, which preserves both the
dictionaries' insertion order of keys and the append order per key. -/
structure ActRec where
  time : Int
  category : ActorKind
  description : ActKind
  ident : String
  loc : Option Location
deriving DecidableEq, Repr

/-- From event.py: the five event variants.  Rider and driver payloads
are object ids into the heaps of `SimState`. -/
inductive Ev where
  | riderRequest (t : Int) (rid : Nat)
  | driverRequest (t : Int) (did : Nat)
  | cancellation (t : Int) (rid : Nat)
  | pickup (t : Int) (rid did : Nat)
  | dropoff (t : Int) (rid did : Nat)
deriving DecidableEq, Repr

/-- From event.py: `Event.timestamp`. -/
def Ev.timestamp : Ev → Int
  | .riderRequest t _ => t
  | .driverRequest t _ => t
  | .cancellation t _ => t
  | .pickup t _ _ => t
  | .dropoff t _ _ => t

/-- From event.py: `Event.__lt__` compares timestamps with `<`. -/
def event_lt (a b : Ev) : Bool :=
  a.timestamp < b.timestamp

/-- Modelled from the spec: container.py (the `PriorityQueue` imported
by simulation.py) is not part of the sources.  Per spec section 4.1 the
queue keeps a total order by timestamp ascending with a stable
tie-break: an event inserted later is placed after every queued event
it is not strictly less than (using `Event.__lt__` from event.py). -/
def pqAdd : List Ev → Ev → List Ev
  | [], e => [e]
  | x :: xs, e => if event_lt e x then e :: x :: xs else x :: pqAdd xs e

/-- Modelled from the spec: `PriorityQueue.remove` returns the event at
the front of the timestamp-ordered queue, failing (None here) on an
empty queue. -/
def removeMin : List Ev → Option (Ev × List Ev)
  | [] => none
  | e :: rest => some (e, rest)

/-- The whole mutable state of a run: the two object heaps (Python
objects referenced by id), the dispatcher's rider partitions
(`self.rider` in dispatcher.py) and driver partitions (`self.driver`),
the monitor's notification record, and the event queue. -/
structure SimState where
  riders : List Rider
  drivers : List Driver
  waiting : List Nat
  cancelled : List Nat
  satisfied : List Nat
  idle : List Nat
  total : List Nat
  monitor : List ActRec
  queue : List Ev
deriving DecidableEq, Repr

/-- Dereference a rider object id. -/
def getRider (st : SimState) (rid : Nat) : Rider :=
  st.riders.getD rid default

/-- Dereference a driver object id. -/
def getDriver (st : SimState) (did : Nat) : Driver :=
  st.drivers.getD did default

/-- Overwrite a driver object in the heap. -/
def setDriver (st : SimState) (did : Nat) (d : Driver) : SimState :=
  { st with drivers := st.drivers.set did d }

/-- Mutate `rider.status` (the only rider field ever assigned). -/
def setRiderStatus (st : SimState) (rid : Nat) (s : RStatus) : SimState :=
  { st with riders := st.riders.set rid { getRider st rid with status := s } }

/-- From monitor.py: `Monitor.notify` appends an `Activity` under the
(category, identifier) key. -/
def notify (st : SimState) (t : Int) (cat : ActorKind) (desc : ActKind)
    (id : String) (loc : Option Location) : SimState :=
  { st with monitor := st.monitor ++ [⟨t, cat, desc, id, loc⟩] }

/-- From driver.py: `Driver.start_drive(location)` sets `is_idle` to
False, computes the travel time to `location`, sets the destination to
`location` and returns the travel time. -/
def start_drive (st : SimState) (did : Nat) (loc : Location) : SimState × Int :=
  let d := getDriver st did
  let d1 := { d with is_idle := false }
  let t := d1.get_travel_time (some loc)
  (setDriver st did { d1 with destination := some loc }, t)

/-- From driver.py: `Driver.end_drive` sets `is_idle` to False and the
location to the current destination.  The destination is not cleared. -/
def end_drive (st : SimState) (did : Nat) : SimState :=
  let d := getDriver st did
  setDriver st did { d with is_idle := false, location := d.destination }

/-- From driver.py: `Driver.start_ride(rider)` sets `is_idle` to False,
the destination to the rider's destination, and returns the travel time
to it. -/
def start_ride (st : SimState) (did rid : Nat) : SimState × Int :=
  let d := getDriver st did
  let r := getRider st rid
  let d1 := { d with is_idle := false, destination := some r.destination }
  (setDriver st did d1, d1.get_travel_time (some r.destination))

/-- From driver.py: `Driver.end_ride` sets `is_idle` to True, the
location to the current destination, and clears the destination. -/
def end_ride (st : SimState) (did : Nat) : SimState :=
  let d := getDriver st did
  setDriver st did { d with is_idle := true, location := d.destination, destination := none }

/-- The expected arrival time of idle driver `did` at the origin of
rider `rid` (the list comprehension in `Dispatcher.request_driver`). -/
def etaTo (st : SimState) (rid did : Nat) : Int :=
  (getDriver st did).get_travel_time (some (getRider st rid).origin)

/-- From dispatcher.py: `Dispatcher.request_driver(rider)` appends the
rider to the waiting partition unconditionally, then, if the idle
partition is non-empty, computes the minimum expected arrival time and
returns the first idle driver attaining it; it returns None otherwise. -/
def request_driver (st : SimState) (rid : Nat) : SimState × Option Nat :=
  let st1 := { st with waiting := st.waiting ++ [rid] }
  match st1.idle with
  | [] => (st1, none)
  | d :: ds =>
      let m := (ds.map (etaTo st1 rid)).foldl min (etaTo st1 rid d)
      (st1, (d :: ds).find? (fun did => etaTo st1 rid did == m))

/-- From dispatcher.py: the registration block of
`Dispatcher.request_rider`: if no structurally equal driver is in the
total partition (Python `in` uses `Driver.__eq__`), append the driver
to total, and also to idle when its idle flag is set. -/
def register_driver (st : SimState) (did : Nat) : SimState :=
  if st.total.any (fun d' => getDriver st d' == getDriver st did) then st
  else
    let stA := { st with total := st.total ++ [did] }
    if (getDriver stA did).is_idle then { stA with idle := stA.idle ++ [did] } else stA

/-- From dispatcher.py: `Dispatcher.request_rider(driver)` runs the
registration block, then returns the head of the waiting partition, or
None when no rider waits. -/
def request_rider (st : SimState) (did : Nat) : SimState × Option Nat :=
  let st1 := register_driver st did
  match st1.waiting with
  | [] => (st1, none)
  | r :: _ => (st1, some r)

/-- From dispatcher.py: `Dispatcher.cancel_ride(rider)`: if some waiting
rider is structurally equal to `rider`, remove the first such entry
from waiting (`list.index` + `pop`) and append `rider` to cancelled. -/
def cancel_ride (st : SimState) (rid : Nat) : SimState :=
  match st.waiting.findIdx? (fun r' => getRider st r' == getRider st rid) with
  | some j => { st with waiting := st.waiting.eraseIdx j, cancelled := st.cancelled ++ [rid] }
  | none => st

/-- From dispatcher.py: `Dispatcher.end_successful_ride(rider)`: if some
waiting rider is structurally equal to `rider`, remove the first such
entry from waiting and append `rider` to satisfied. -/
def end_successful_ride (st : SimState) (rid : Nat) : SimState :=
  match st.waiting.findIdx? (fun r' => getRider st r' == getRider st rid) with
  | some j => { st with waiting := st.waiting.eraseIdx j, satisfied := st.satisfied ++ [rid] }
  | none => st

/-- From event.py: the `do` methods of the five event classes.  Returns
the updated state (the queue field is untouched here; the simulation
loop manages it) and the list of spawned events in append order.

Reads whose value is unchanged by the preceding operations of the same
`do` method are written against the state in which they are unchanged:
`notify` touches only the monitor, the driver transitions touch only
the driver heap, and `request_driver` touches only the waiting
partition, so e.g. the membership tests that Python performs midway
(`self.rider not in dispatcher.rider[SATISFIED]`, `... [CANCELLED]`)
read exactly the entry-state partitions and rider heap, and a rider's
`patience`, `origin`, `destination` and `identifier` are never mutated
before they are read. -/
def doEvent (e : Ev) (st : SimState) : SimState × List Ev :=
  match e with
  | .riderRequest t rid =>
      let r := getRider st rid
      let st1 := notify st t .rider .request r.identifier (some r.origin)
      let p := request_driver st1 rid
      match p.2 with
      | some did =>
          let q := start_drive p.1 did r.origin
          (q.1, [.pickup (t + q.2) rid did, .cancellation (t + r.patience) rid])
      | none => (p.1, [.cancellation (t + r.patience) rid])
  | .driverRequest t did =>
      let d := getDriver st did
      let st1 := notify st t .driver .request d.identifier d.location
      let p := request_rider st1 did
      match p.2 with
      | some rid =>
          let q := start_drive p.1 did (getRider st rid).origin
          (q.1, [.pickup (t + q.2) rid did])
      | none => (p.1, [])
  | .cancellation t rid =>
      let r := getRider st rid
      let st1 := notify st t .rider .cancel r.identifier (some r.origin)
      if st.satisfied.any (fun r' => getRider st r' == getRider st rid) then
        (st1, [])
      else
        let st2 := setRiderStatus st1 rid .cancelled
        (cancel_ride st2 rid, [])
  | .pickup t rid did =>
      let st1 := end_drive st did
      let st2 := notify st1 t .rider .pickup (getRider st rid).identifier
        (some (getRider st rid).destination)
      let st3 := notify st2 t .driver .pickup (getDriver st1 did).identifier
        (getDriver st1 did).location
      if st.cancelled.any (fun r' => getRider st r' == getRider st rid) then
        (st3, [.driverRequest t did])
      else
        let q := start_ride st3 did rid
        let st4 := setRiderStatus q.1 rid .satisfied
        (end_successful_ride st4 rid, [.dropoff (t + q.2) rid did])
  | .dropoff t rid did =>
      let st1 := end_ride st did
      let st2 := notify st1 t .driver .dropoff (getDriver st1 did).identifier
        (getDriver st1 did).location
      (end_successful_ride st2 rid, [.driverRequest t did])

/-- One iteration of `Simulation.run`'s while loop: the event `e` has
been removed from the queue (remainder `rest`), is applied, and the
events it returns are added to the queue in order. -/
def applyHead (e : Ev) (rest : List Ev) (st : SimState) : SimState :=
  let p := doEvent e st
  { p.1 with queue := p.2.foldl pqAdd rest }

/-- One loop iteration as a total function (identity on an empty queue). -/
def stepHead (st : SimState) : SimState :=
  match st.queue with
  | [] => st
  | e :: rest => applyHead e rest st

/-- `n` loop iterations. -/
def stepN : Nat → SimState → SimState
  | 0, st => st
  | n + 1, st => stepN n (stepHead st)

/-- From simulation.py: the while loop of `Simulation.run`, with fuel
for termination; `none` means the fuel ran out before the queue
drained. -/
def loop : Nat → SimState → Option SimState
  | 0, st => if st.queue = [] then some st else none
  | fuel + 1, st =>
      match st.queue with
      | [] => some st
      | e :: rest => loop fuel (applyHead e rest st)

/-- From simulation.py: `Simulation.__init__` plus the initial
`for event in initial_events: self._events.add(event)`. -/
def initState (rs : List Rider) (ds : List Driver) (evs : List Ev) : SimState :=
  { riders := rs, drivers := ds, waiting := [], cancelled := [], satisfied := [],
    idle := [], total := [], monitor := [], queue := evs.foldl pqAdd [] }

instance : Inhabited ActRec := ⟨⟨0, .rider, .request, "", none⟩⟩

/-- The per-key activity list `self._activities[category][identifier]`
of monitor.py, recovered from the flat notification record. -/
def actsOf (m : List ActRec) (cat : ActorKind) (id : String) : List ActRec :=
  m.filter (fun a => a.category == cat && a.ident == id)

/-- The keys of `self._activities[category]` in dictionary insertion
order (first notification first). -/
def keysOf (m : List ActRec) (cat : ActorKind) : List String :=
  ((m.filter (fun a => a.category == cat)).map (fun a => a.ident)).foldl
    (fun acc x => if x ∈ acc then acc else acc ++ [x]) []

/-- Activity locations as stored; every notification reached by the
claims carries a present location. -/
def locD (o : Option Location) : Location :=
  o.getD ⟨0, 0⟩

/-- From monitor.py: the inner loop of `_average_total_distance` —
the summed Manhattan distance between consecutive activity locations. -/
def pairDistSum (l : List ActRec) : Int :=
  ((l.zip l.tail).map (fun p => manhattan_distance (locD p.1.loc) (locD p.2.loc))).sum

/-- From monitor.py: the inner loop of `_average_ride_distance` — only
consecutive (pickup, dropoff) pairs contribute. -/
def ridePairSum (l : List ActRec) : Int :=
  ((l.zip l.tail).map (fun p =>
    if p.1.description == ActKind.pickup && p.2.description == ActKind.dropoff then
      manhattan_distance (locD p.1.loc) (locD p.2.loc)
    else 0)).sum

/-- From monitor.py: `Monitor._average_wait_time` averages, over the
riders with at least two activities, the time between the first two;
with no qualifying rider it raises ZeroDivisionError (the `error`
case). -/
def average_wait_time (m : List ActRec) : Except Unit ℚ :=
  let qual := (keysOf m .rider).filter (fun i => 2 ≤ (actsOf m .rider i).length)
  if qual.length ≠ 0 then
    .ok ((((qual.map (fun i =>
      ((actsOf m .rider i).getD 1 default).time -
      ((actsOf m .rider i).getD 0 default).time)).sum : Int) : ℚ) / (qual.length : ℚ))
  else .error ()

/-- From monitor.py: `Monitor._average_total_distance`; raises
ZeroDivisionError when no driver has at least two activities. -/
def average_total_distance (m : List ActRec) : Except Unit ℚ :=
  let qual := (keysOf m .driver).filter (fun i => 2 ≤ (actsOf m .driver i).length)
  if qual.length ≠ 0 then
    .ok ((((qual.map (fun i => pairDistSum (actsOf m .driver i))).sum : Int) : ℚ) /
      (qual.length : ℚ))
  else .error ()

/-- From monitor.py: `Monitor._average_ride_distance`; divides by the
number of registered drivers and raises ZeroDivisionError when there is
none. -/
def average_ride_distance (m : List ActRec) : Except Unit ℚ :=
  let ks := keysOf m .driver
  if ks.length ≠ 0 then
    .ok ((((ks.map (fun i => ridePairSum (actsOf m .driver i))).sum : Int) : ℚ) /
      (ks.length : ℚ))
  else .error ()

/-- From monitor.py: `Monitor.report`.  Python evaluates the dictionary
values left to right, so a ZeroDivisionError from `_average_wait_time`
propagates first. -/
structure Stats where
  rider_wait_time : ℚ
  driver_total_distance : ℚ
  driver_ride_distance : ℚ
deriving DecidableEq, Repr

/-- From monitor.py: `Monitor.report` assembles the three averages;
any ZeroDivisionError propagates to the caller of `Simulation.run`. -/
def report (m : List ActRec) : Except Unit Stats := do
  let w ← average_wait_time m
  let t ← average_total_distance m
  let r ← average_ride_distance m
  return ⟨w, t, r⟩

/-- From simulation.py: `Simulation.run` — drain the queue, then return
`self._monitor.report()` (or propagate its ZeroDivisionError). -/
def runSim (fuel : Nat) (st : SimState) : Option (Except Unit Stats) :=
  (loop fuel st).map (fun s => report s.monitor)

/-! ### Frame lemmas: which fields each operation leaves untouched -/

@[simp] theorem notify_riders (st : SimState) (t c k i l) : (notify st t c k i l).riders = st.riders := rfl
@[simp] theorem notify_drivers (st : SimState) (t c k i l) : (notify st t c k i l).drivers = st.drivers := rfl
@[simp] theorem notify_waiting (st : SimState) (t c k i l) : (notify st t c k i l).waiting = st.waiting := rfl
@[simp] theorem notify_cancelled (st : SimState) (t c k i l) : (notify st t c k i l).cancelled = st.cancelled := rfl
@[simp] theorem notify_satisfied (st : SimState) (t c k i l) : (notify st t c k i l).satisfied = st.satisfied := rfl
@[simp] theorem notify_idle (st : SimState) (t c k i l) : (notify st t c k i l).idle = st.idle := rfl
@[simp] theorem notify_total (st : SimState) (t c k i l) : (notify st t c k i l).total = st.total := rfl
@[simp] theorem notify_queue (st : SimState) (t c k i l) : (notify st t c k i l).queue = st.queue := rfl

@[simp] theorem setDriver_riders (st : SimState) (did d) : (setDriver st did d).riders = st.riders := rfl
@[simp] theorem setDriver_waiting (st : SimState) (did d) : (setDriver st did d).waiting = st.waiting := rfl
@[simp] theorem setDriver_cancelled (st : SimState) (did d) : (setDriver st did d).cancelled = st.cancelled := rfl
@[simp] theorem setDriver_satisfied (st : SimState) (did d) : (setDriver st did d).satisfied = st.satisfied := rfl
@[simp] theorem setDriver_idle (st : SimState) (did d) : (setDriver st did d).idle = st.idle := rfl
@[simp] theorem setDriver_total (st : SimState) (did d) : (setDriver st did d).total = st.total := rfl
@[simp] theorem setDriver_queue (st : SimState) (did d) : (setDriver st did d).queue = st.queue := rfl

@[simp] theorem setRiderStatus_drivers (st : SimState) (rid s) : (setRiderStatus st rid s).drivers = st.drivers := rfl
@[simp] theorem setRiderStatus_waiting (st : SimState) (rid s) : (setRiderStatus st rid s).waiting = st.waiting := rfl
@[simp] theorem setRiderStatus_cancelled (st : SimState) (rid s) : (setRiderStatus st rid s).cancelled = st.cancelled := rfl
@[simp] theorem setRiderStatus_satisfied (st : SimState) (rid s) : (setRiderStatus st rid s).satisfied = st.satisfied := rfl
@[simp] theorem setRiderStatus_idle (st : SimState) (rid s) : (setRiderStatus st rid s).idle = st.idle := rfl
@[simp] theorem setRiderStatus_total (st : SimState) (rid s) : (setRiderStatus st rid s).total = st.total := rfl
@[simp] theorem setRiderStatus_queue (st : SimState) (rid s) : (setRiderStatus st rid s).queue = st.queue := rfl

@[simp] theorem getRider_notify (st : SimState) (t c k i l) (r : Nat) :
    getRider (notify st t c k i l) r = getRider st r := rfl
@[simp] theorem getRider_setDriver (st : SimState) (did d) (r : Nat) :
    getRider (setDriver st did d) r = getRider st r := rfl
@[simp] theorem getDriver_notify (st : SimState) (t c k i l) (d : Nat) :
    getDriver (notify st t c k i l) d = getDriver st d := rfl
@[simp] theorem getDriver_setRiderStatus (st : SimState) (rid s) (d : Nat) :
    getDriver (setRiderStatus st rid s) d = getDriver st d := rfl

@[simp] theorem end_drive_riders (st : SimState) (did) : (end_drive st did).riders = st.riders := rfl
@[simp] theorem end_drive_waiting (st : SimState) (did) : (end_drive st did).waiting = st.waiting := rfl
@[simp] theorem end_drive_cancelled (st : SimState) (did) : (end_drive st did).cancelled = st.cancelled := rfl
@[simp] theorem end_drive_satisfied (st : SimState) (did) : (end_drive st did).satisfied = st.satisfied := rfl
@[simp] theorem end_drive_queue (st : SimState) (did) : (end_drive st did).queue = st.queue := rfl
@[simp] theorem getRider_end_drive (st : SimState) (did) (r : Nat) :
    getRider (end_drive st did) r = getRider st r := rfl
@[simp] theorem end_ride_riders (st : SimState) (did) : (end_ride st did).riders = st.riders := rfl
@[simp] theorem end_ride_waiting (st : SimState) (did) : (end_ride st did).waiting = st.waiting := rfl
@[simp] theorem end_ride_cancelled (st : SimState) (did) : (end_ride st did).cancelled = st.cancelled := rfl
@[simp] theorem end_ride_satisfied (st : SimState) (did) : (end_ride st did).satisfied = st.satisfied := rfl
@[simp] theorem end_ride_queue (st : SimState) (did) : (end_ride st did).queue = st.queue := rfl
@[simp] theorem getRider_end_ride (st : SimState) (did) (r : Nat) :
    getRider (end_ride st did) r = getRider st r := rfl

theorem getDriver_congr {s s' : SimState} (h : s.drivers = s'.drivers) (did : Nat) :
    getDriver s did = getDriver s' did := by
  unfold getDriver
  rw [h]

theorem getRider_congr {s s' : SimState} (h : s.riders = s'.riders) (rid : Nat) :
    getRider s rid = getRider s' rid := by
  unfold getRider
  rw [h]

theorem cancel_ride_fields (st : SimState) (rid : Nat) :
    (cancel_ride st rid).riders = st.riders ∧ (cancel_ride st rid).drivers = st.drivers
    ∧ (cancel_ride st rid).satisfied = st.satisfied ∧ (cancel_ride st rid).idle = st.idle
    ∧ (cancel_ride st rid).total = st.total ∧ (cancel_ride st rid).queue = st.queue
    ∧ (cancel_ride st rid).monitor = st.monitor := by
  unfold cancel_ride
  cases st.waiting.findIdx? (fun r' => getRider st r' == getRider st rid) <;>
    exact ⟨rfl, rfl, rfl, rfl, rfl, rfl, rfl⟩

theorem end_successful_ride_fields (st : SimState) (rid : Nat) :
    (end_successful_ride st rid).riders = st.riders
    ∧ (end_successful_ride st rid).drivers = st.drivers
    ∧ (end_successful_ride st rid).cancelled = st.cancelled
    ∧ (end_successful_ride st rid).idle = st.idle
    ∧ (end_successful_ride st rid).total = st.total
    ∧ (end_successful_ride st rid).queue = st.queue
    ∧ (end_successful_ride st rid).monitor = st.monitor := by
  unfold end_successful_ride
  cases st.waiting.findIdx? (fun r' => getRider st r' == getRider st rid) <;>
    exact ⟨rfl, rfl, rfl, rfl, rfl, rfl, rfl⟩

theorem prod_fst_match (s : SimState) (l : List Nat) :
    (match l with
     | [] => (s, (none : Option Nat))
     | r :: _ => (s, some r)).1 = s := by
  cases l <;> rfl

theorem request_rider_fst (st : SimState) (did : Nat) :
    (request_rider st did).1 = register_driver st did :=
  prod_fst_match (register_driver st did) (register_driver st did).waiting

theorem register_driver_fields (st : SimState) (did : Nat) :
    (register_driver st did).riders = st.riders
    ∧ (register_driver st did).drivers = st.drivers
    ∧ (register_driver st did).waiting = st.waiting
    ∧ (register_driver st did).cancelled = st.cancelled
    ∧ (register_driver st did).satisfied = st.satisfied
    ∧ (register_driver st did).queue = st.queue := by
  unfold register_driver
  split
  · exact ⟨rfl, rfl, rfl, rfl, rfl, rfl⟩
  · dsimp only
    split
    · exact ⟨rfl, rfl, rfl, rfl, rfl, rfl⟩
    · exact ⟨rfl, rfl, rfl, rfl, rfl, rfl⟩

/-! ### List helper lemmas -/

theorem foldl_min_le_init : ∀ (l : List Int) (a : Int), l.foldl min a ≤ a := by
  intro l
  induction l with
  | nil => intro a; simp
  | cons x xs ih => intro a; exact le_trans (ih (min a x)) (min_le_left a x)

theorem foldl_min_le_mem : ∀ (l : List Int) (a : Int), ∀ x ∈ l, l.foldl min a ≤ x := by
  intro l
  induction l with
  | nil => intro a x hx; simp at hx
  | cons y ys ih =>
    intro a x hx
    rcases List.mem_cons.mp hx with h | h
    · subst h
      exact le_trans (foldl_min_le_init ys (min a x)) (min_le_right a x)
    · exact ih (min a y) x h

theorem foldl_min_attained : ∀ (l : List Int) (a : Int), l.foldl min a = a ∨ l.foldl min a ∈ l := by
  intro l
  induction l with
  | nil => intro a; left; rfl
  | cons y ys ih =>
    intro a
    have hstep : (y :: ys).foldl min a = ys.foldl min (min a y) := rfl
    rcases ih (min a y) with h | h
    · rcases min_choice a y with hm | hm
      · left; rw [hstep, h, hm]
      · right; rw [hstep, h, hm]; exact List.mem_cons_self y ys
    · right; rw [hstep]; exact List.mem_cons_of_mem y h

theorem find?_decomp {α : Type} (p : α → Bool) :
    ∀ (l : List α) (a : α), l.find? p = some a →
      ∃ l₁ l₂, l = l₁ ++ a :: l₂ ∧ ∀ y ∈ l₁, p y = false := by
  intro l
  induction l with
  | nil => intro a h; simp at h
  | cons x xs ih =>
    intro a h
    rw [List.find?_cons] at h
    by_cases hp : p x = true
    · rw [hp] at h
      refine ⟨[], xs, ?_, by simp⟩
      simpa using (Option.some_injective _ h) ▸ rfl
    · rw [Bool.not_eq_true] at hp
      rw [hp] at h
      obtain ⟨l₁, l₂, rfl, hf⟩ := ih a h
      exact ⟨x :: l₁, l₂, rfl, by
        intro y hy
        rcases List.mem_cons.mp hy with h1 | h1
        · subst h1; exact hp
        · exact hf y h1⟩

theorem findIdx?_decomp {α : Type} (p : α → Bool) :
    ∀ (l : List α) (i j : Nat), List.findIdx? p l i = some j →
      ∃ l₁ x l₂, l = l₁ ++ x :: l₂ ∧ i + l₁.length = j ∧ p x = true ∧ ∀ y ∈ l₁, p y = false := by
  intro l
  induction l with
  | nil => intro i j h; simp [List.findIdx?] at h
  | cons a as ih =>
    intro i j h
    rw [List.findIdx?_cons] at h
    by_cases hp : p a = true
    · rw [if_pos hp] at h
      exact ⟨[], a, as, rfl, by simpa using Option.some_injective _ h, hp, by simp⟩
    · rw [if_neg hp] at h
      obtain ⟨l₁, x, l₂, rfl, hlen, hx, hfa⟩ := ih (i + 1) j h
      refine ⟨a :: l₁, x, l₂, rfl, by simp only [List.length_cons]; omega, hx, ?_⟩
      intro y hy
      rcases List.mem_cons.mp hy with h1 | h1
      · subst h1; exact Bool.not_eq_true _ ▸ hp
      · exact hfa y h1

theorem eraseIdx_append_cons {α : Type} :
    ∀ (l₁ : List α) (x : α) (l₂ : List α), (l₁ ++ x :: l₂).eraseIdx l₁.length = l₁ ++ l₂ := by
  intro l₁
  induction l₁ with
  | nil => intro x l₂; simp
  | cons a as ih => intro x l₂; simp [List.eraseIdx_cons_succ, ih]

theorem getDriver_setDriver_self (st : SimState) (did : Nat) (d : Driver)
    (h : did < st.drivers.length) : getDriver (setDriver st did d) did = d := by
  simp [getDriver, setDriver, List.getD_eq_getElem?_getD, List.getElem?_set, h]

theorem start_ride_then_dest (s : SimState) (did rid : Nat) (h : did < s.drivers.length) :
    getDriver (end_successful_ride (setRiderStatus (start_ride s did rid).1 rid .satisfied) rid) did =
      { getDriver s did with is_idle := false, destination := some (getRider s rid).destination } := by
  have h2 : getDriver (end_successful_ride (setRiderStatus (start_ride s did rid).1 rid .satisfied) rid) did
      = getDriver (start_ride s did rid).1 did := by
    apply getDriver_congr
    rw [(end_successful_ride_fields _ _).2.1, setRiderStatus_drivers]
  rw [h2]
  exact getDriver_setDriver_self s did _ h

/-! ### C7 -/

/-- C7: for every driver with a set current location and positive
speed, `get_travel_time(destination)` equals
`round(manhattan_distance(location, destination) / speed)` (Python
banker's rounding of the exact quotient), and equals 0 whenever the
speed is 0 or the destination or the location is unset; in particular a
driver at (1,1) with speed 2 has travel time 5 to (6,6) and travel time
3 to (4,4). -/
theorem C7_travel_time (d : Driver) (t l : Location)
    (hl : d.location = some l) (hs : 0 < d.speed) :
    d.get_travel_time (some t) = pyRound (manhattan_distance l t) d.speed
    ∧ (∀ d' : Driver, d'.speed = 0 → ∀ o, d'.get_travel_time o = 0)
    ∧ (∀ d' : Driver, d'.location = none → ∀ o, d'.get_travel_time o = 0)
    ∧ (∀ d' : Driver, d'.get_travel_time none = 0)
    ∧ Driver.get_travel_time ⟨"Sam", some ⟨1, 1⟩, 2, none, true⟩ (some ⟨6, 6⟩) = 5
    ∧ Driver.get_travel_time ⟨"Sam", some ⟨1, 1⟩, 2, none, true⟩ (some ⟨4, 4⟩) = 3 := by
  refine ⟨?_, ?_, ?_, ?_, by decide, by decide⟩
  · unfold Driver.get_travel_time
    rw [hl]
    simp [ne_of_gt hs]
  · intro d' hsp o
    unfold Driver.get_travel_time
    cases o with
    | none => rfl
    | some t' =>
      cases hl' : d'.location with
      | none => rfl
      | some l' => simp [hsp]
  · intro d' hl' o
    unfold Driver.get_travel_time
    cases o with
    | none => rfl
    | some t' => rw [hl']
  · intro d'
    unfold Driver.get_travel_time
    rfl

theorem C7_travel_time_witness :
    (Driver.location ⟨"Sam", some ⟨1, 1⟩, 2, none, true⟩ = some ⟨1, 1⟩
      ∧ 0 < Driver.speed ⟨"Sam", some ⟨1, 1⟩, 2, none, true⟩)
    ∧ Driver.get_travel_time ⟨"Sam", some ⟨1, 1⟩, 2, none, true⟩ (some ⟨6, 6⟩) =
        pyRound (manhattan_distance ⟨1, 1⟩ ⟨6, 6⟩) 2 :=
  ⟨⟨by decide, by decide⟩,
    (C7_travel_time ⟨"Sam", some ⟨1, 1⟩, 2, none, true⟩ ⟨6, 6⟩ ⟨1, 1⟩ (by decide) (by decide)).1⟩

/-! ### C9 -/

/-- C9: the claim asserts that for every well-formed token `row,col`
(including multi-digit numbers) `deserialize_location` returns the
integer row before the comma and the integer column after it.  The code
instead returns the *characters* at string indices 0 and 2: on the
well-formed token "12,3" it yields the pair ('1', ','), whose second
component is the comma, not a number at all — while the claimed result
would be the numbers 12 and 3. -/
theorem C9_deserialize_location_bug :
    deserialize_location ['1', '2', ',', '3'] = some ('1', ',')
    ∧ (',' : Char).isDigit = false
    ∧ deserialize_location ['3', ',', '2'] = some ('3', '2') := by
  refine ⟨?_, by decide, ?_⟩ <;> rfl

/-! ### C8 -/

/-- A dispatcher state holding two distinct driver objects that share
the identifier "Sam" but differ in location; object 0 is registered
(total and idle partitions). -/
def c8st : SimState :=
  { riders := [], drivers := [⟨"Sam", some ⟨1, 1⟩, 2, none, true⟩, ⟨"Sam", some ⟨2, 2⟩, 2, none, true⟩],
    waiting := [], cancelled := [], satisfied := [], idle := [0], total := [0],
    monitor := [], queue := [] }

/-- C8 counterexample: the claim says registration is idempotent keyed
by identifier alone.  Presenting driver object 1 — same identifier
"Sam" as the registered driver 0 but a different location — changes
both the total and the idle partition, because `Driver.__eq__` compares
the full record, not just the identifier. -/
theorem C8_counterexample :
    (getDriver c8st 1).identifier = (getDriver c8st 0).identifier
    ∧ 0 ∈ c8st.total
    ∧ (request_rider c8st 1).1.total ≠ c8st.total
    ∧ (request_rider c8st 1).1.idle ≠ c8st.idle := by
  refine ⟨rfl, by decide, by decide, by decide⟩

/-- C8 (amended): driver registration in `request_rider` is idempotent
keyed by the full driver record: when some driver in the total
partition is structurally equal to the presented one (same identifier,
location, speed, idle flag and destination), the total and idle
partitions are left unchanged. -/
theorem C8_registration_idempotent (st : SimState) (did : Nat)
    (h : ∃ d' ∈ st.total, getDriver st d' = getDriver st did) :
    (request_rider st did).1.total = st.total
    ∧ (request_rider st did).1.idle = st.idle := by
  have hany : st.total.any (fun d' => getDriver st d' == getDriver st did) = true := by
    obtain ⟨d', hd, he⟩ := h
    exact List.any_eq_true.mpr ⟨d', hd, by simp [he]⟩
  rw [request_rider_fst]
  unfold register_driver
  rw [if_pos hany]
  exact ⟨rfl, rfl⟩

theorem C8_registration_idempotent_witness :
    (∃ d' ∈ c8st.total, getDriver c8st d' = getDriver c8st 0)
    ∧ (request_rider c8st 0).1.total = c8st.total :=
  ⟨⟨0, by decide, rfl⟩, (C8_registration_idempotent c8st 0 ⟨0, by decide, rfl⟩).1⟩

/-! ### C4 -/

/-- A state in which driver 0 is en route to (1,1) (the origin of rider
0) and rider 0 has already been moved to the cancelled partition. -/
def c4st : SimState :=
  { riders := [⟨"xyz", ⟨1, 1⟩, ⟨6, 6⟩, 4, .cancelled⟩],
    drivers := [⟨"Sam", some ⟨0, 0⟩, 2, some ⟨1, 1⟩, false⟩],
    waiting := [], cancelled := [0], satisfied := [], idle := [], total := [0],
    monitor := [], queue := [] }

/-- C4 counterexample: the claim says a Pickup clears the driver's
destination and, in the rider-cancelled branch, leaves the driver with
no destination.  Applying a Pickup for the cancelled rider 0 leaves the
driver's destination set to (1,1): `Driver.end_drive` assigns
`is_idle, location = False, destination` without clearing the
destination, and the cancelled branch never reassigns it. -/
theorem C4_counterexample :
    0 ∈ c4st.cancelled
    ∧ (getDriver c4st 0).destination = some ⟨1, 1⟩
    ∧ (getDriver (doEvent (.pickup 3 0 0) c4st).1 0).destination = some ⟨1, 1⟩
    ∧ (getDriver (doEvent (.pickup 3 0 0) c4st).1 0).destination ≠ none := by
  refine ⟨by decide, rfl, by decide, by decide⟩

/-- C4 (amended): for every Pickup whose driver was en route (its
destination is some `l`), `end_drive` sets the driver's location to
`l` and leaves the idle flag false, but does not clear the destination:
it stays `some l`.  Consequently, applying the Pickup leaves the
driver's destination equal to `some l` (its pre-pickup value, the
rider's origin) in the rider-cancelled branch, and equal to the rider's
destination (assigned by `start_ride`) in the normal branch. -/
theorem C4_pickup_arrival (st : SimState) (t : Int) (rid did : Nat) (l : Location)
    (hlen : did < st.drivers.length)
    (hd : (getDriver st did).destination = some l) :
    (getDriver (end_drive st did) did).location = some l
    ∧ (getDriver (end_drive st did) did).is_idle = false
    ∧ (getDriver (end_drive st did) did).destination = some l
    ∧ (st.cancelled.any (fun r' => getRider st r' == getRider st rid) = true →
        (getDriver (doEvent (.pickup t rid did) st).1 did).destination = some l)
    ∧ (st.cancelled.any (fun r' => getRider st r' == getRider st rid) = false →
        (getDriver (doEvent (.pickup t rid did) st).1 did).destination =
          some (getRider st rid).destination) := by
  have hset : getDriver (end_drive st did) did =
      { getDriver st did with is_idle := false, location := (getDriver st did).destination } :=
    getDriver_setDriver_self st did _ hlen
  refine ⟨?_, ?_, ?_, ?_, ?_⟩
  · rw [hset, hd]
  · rw [hset]
  · rw [hset]; exact hd
  · intro hc
    unfold doEvent
    dsimp only
    rw [if_pos hc]
    dsimp only
    simp only [getDriver_notify]
    rw [hset]
    exact hd
  · intro hc
    unfold doEvent
    dsimp only
    rw [if_neg (by rw [hc]; exact Bool.false_ne_true)]
    dsimp only
    rw [start_ride_then_dest]
    · rfl
    · simp only [notify_drivers, end_drive, setDriver, List.length_set]
      exact hlen

theorem C4_pickup_arrival_witness :
    (0 < c4st.drivers.length ∧ (getDriver c4st 0).destination = some ⟨1, 1⟩)
    ∧ (getDriver (end_drive c4st 0) 0).location = some ⟨1, 1⟩ :=
  ⟨⟨by decide, by decide⟩, (C4_pickup_arrival c4st 3 0 0 ⟨1, 1⟩ (by decide) (by decide)).1⟩

/-! ### C1 and C5: request_driver -/

theorem request_driver_eq (st : SimState) (rid : Nat) :
    request_driver st rid =
      ({ st with waiting := st.waiting ++ [rid] },
        match st.idle with
        | [] => none
        | d :: ds =>
            (d :: ds).find? (fun did => etaTo st rid did ==
              (ds.map (etaTo st rid)).foldl min (etaTo st rid d))) := by
  unfold request_driver
  cases st.idle <;> rfl

/-- C5: `request_driver` leaves the idle partition, the total partition
and the whole driver heap unchanged (so every driver's idle flag,
location, speed and destination are untouched), and a driver it returns
is still present in the idle partition afterwards. -/
theorem C5_request_driver_frame (st : SimState) (rid : Nat) :
    (request_driver st rid).1.idle = st.idle
    ∧ (request_driver st rid).1.total = st.total
    ∧ (request_driver st rid).1.drivers = st.drivers
    ∧ (∀ did, (request_driver st rid).2 = some did → did ∈ (request_driver st rid).1.idle) := by
  rw [request_driver_eq]
  refine ⟨rfl, rfl, rfl, ?_⟩
  cases hi : st.idle with
  | nil => intro did h; simp at h
  | cons d ds =>
      intro did h
      dsimp only at h
      exact List.mem_of_find?_eq_some h

/-- A dispatcher state with one idle registered driver and one rider
object, used to instantiate the request_driver theorems. -/
def c5st : SimState :=
  { riders := [⟨"xyz", ⟨1, 1⟩, ⟨6, 6⟩, 4, .waiting⟩],
    drivers := [⟨"Sam", some ⟨1, 1⟩, 2, none, true⟩],
    waiting := [], cancelled := [], satisfied := [], idle := [0], total := [0],
    monitor := [], queue := [] }

theorem C5_request_driver_frame_witness :
    (request_driver c5st 0).2 = some 0 ∧ 0 ∈ (request_driver c5st 0).1.idle :=
  ⟨by decide, (C5_request_driver_frame c5st 0).2.2.2 0 (by decide)⟩

/-- C1: `request_driver` always appends the rider to the waiting
partition; it returns None exactly when the idle partition is empty;
and any driver it returns is an idle driver whose travel time to the
rider's origin is minimal among all idle drivers, every idle driver
listed before it having a strictly larger travel time (ties broken by
earliest position in the idle partition's order). -/
theorem C1_request_driver_matching (st : SimState) (rid : Nat) :
    (request_driver st rid).1.waiting = st.waiting ++ [rid]
    ∧ ((request_driver st rid).2 = none ↔ st.idle = [])
    ∧ (∀ did, (request_driver st rid).2 = some did →
        did ∈ st.idle
        ∧ (∀ d' ∈ st.idle, etaTo st rid did ≤ etaTo st rid d')
        ∧ ∃ l₁ l₂, st.idle = l₁ ++ did :: l₂
            ∧ ∀ d' ∈ l₁, etaTo st rid did < etaTo st rid d') := by
  rw [request_driver_eq]
  refine ⟨rfl, ?_, ?_⟩
  · cases hi : st.idle with
    | nil => simp
    | cons d ds =>
        dsimp only
        constructor
        · intro h
          exfalso
          have hall := List.find?_eq_none.mp h
          rcases foldl_min_attained (ds.map (etaTo st rid)) (etaTo st rid d) with hA | hA
          · exact hall d (List.mem_cons_self d ds) (beq_iff_eq.mpr hA.symm)
          · obtain ⟨x, hx, hxe⟩ := List.mem_map.mp hA
            exact hall x (List.mem_cons_of_mem d hx) (beq_iff_eq.mpr hxe)
        · intro h
          exact (List.cons_ne_nil d ds h).elim
  · cases hi : st.idle with
    | nil => intro did h; simp at h
    | cons d ds =>
        intro did h
        dsimp only at h
        have hmem : did ∈ d :: ds := List.mem_of_find?_eq_some h
        have hpd := List.find?_some h
        simp only [beq_iff_eq] at hpd
        have heq : etaTo st rid did = (ds.map (etaTo st rid)).foldl min (etaTo st rid d) := hpd
        have hle : ∀ d' ∈ d :: ds, etaTo st rid did ≤ etaTo st rid d' := by
          intro d' hd'
          rw [heq]
          rcases List.mem_cons.mp hd' with h1 | h1
          · subst h1; exact foldl_min_le_init _ _
          · exact foldl_min_le_mem _ _ _ (List.mem_map_of_mem _ h1)
        obtain ⟨l₁, l₂, hdec, hfa⟩ := find?_decomp _ _ _ h
        refine ⟨hmem, hle, l₁, l₂, hdec, ?_⟩
        intro d' hd'
        have hmem' : d' ∈ d :: ds := by
          rw [hdec]; exact List.mem_append.mpr (Or.inl hd')
        have hne : etaTo st rid d' ≠ (ds.map (etaTo st rid)).foldl min (etaTo st rid d) :=
          beq_eq_false_iff_ne.mp (hfa d' hd')
        exact lt_of_le_of_ne (hle d' hmem') (by rw [heq]; exact fun hx => hne hx.symm)

theorem C1_request_driver_matching_witness :
    (request_driver c5st 1).2 = some 0 ∧ 0 ∈ c5st.idle ∧
      (request_driver c5st 1).1.waiting = c5st.waiting ++ [1] :=
  ⟨by decide, ((C1_request_driver_matching c5st 1).2.2 0 (by decide)).1,
    (C1_request_driver_matching c5st 1).1⟩

/-! ### C6: event queue ordering -/

theorem event_lt_iff (a b : Ev) : event_lt a b = true ↔ a.timestamp < b.timestamp := by
  simp [event_lt]

theorem pqAdd_perm (l : List Ev) (e : Ev) : (pqAdd l e).Perm (e :: l) := by
  induction l with
  | nil => exact List.Perm.refl _
  | cons x xs ih =>
    unfold pqAdd
    by_cases h : event_lt e x = true
    · rw [if_pos h]
    · rw [if_neg h]
      exact (List.Perm.cons x ih).trans (List.Perm.swap e x xs)

theorem sorted_pqAdd (e : Ev) {l : List Ev}
    (h : l.Sorted (fun a b => a.timestamp ≤ b.timestamp)) :
    (pqAdd l e).Sorted (fun a b => a.timestamp ≤ b.timestamp) := by
  induction l with
  | nil => simp [pqAdd]
  | cons x xs ih =>
    rw [List.sorted_cons] at h
    obtain ⟨hx, hxs⟩ := h
    unfold pqAdd
    by_cases hlt : event_lt e x = true
    · rw [if_pos hlt]
      have hlt' : e.timestamp < x.timestamp := (event_lt_iff e x).mp hlt
      rw [List.sorted_cons]
      refine ⟨?_, List.sorted_cons.mpr ⟨hx, hxs⟩⟩
      intro b hb
      rcases List.mem_cons.mp hb with h1 | h1
      · subst h1; exact le_of_lt hlt'
      · exact le_trans (le_of_lt hlt') (hx b h1)
    · rw [if_neg hlt]
      have hge : x.timestamp ≤ e.timestamp := by
        have := (not_congr (event_lt_iff e x)).mp hlt
        omega
      rw [List.sorted_cons]
      refine ⟨?_, ih hxs⟩
      intro b hb
      rcases List.mem_cons.mp ((pqAdd_perm xs e).mem_iff.mp hb) with h1 | h1
      · subst h1; exact hge
      · exact hx b h1

theorem filter_pqAdd (t : Int) (e : Ev) {l : List Ev}
    (h : l.Sorted (fun a b => a.timestamp ≤ b.timestamp)) :
    (pqAdd l e).filter (fun x => x.timestamp == t)
      = l.filter (fun x => x.timestamp == t)
        ++ if e.timestamp == t then [e] else [] := by
  induction l with
  | nil => simp [pqAdd, List.filter_cons]
  | cons x xs ih =>
    rw [List.sorted_cons] at h
    obtain ⟨hx, hxs⟩ := h
    unfold pqAdd
    by_cases hlt : event_lt e x = true
    · rw [if_pos hlt]
      have hlt' : e.timestamp < x.timestamp := (event_lt_iff e x).mp hlt
      by_cases het : (e.timestamp == t) = true
      · have htv : e.timestamp = t := beq_iff_eq.mp het
        have hnone : (x :: xs).filter (fun y => y.timestamp == t) = [] := by
          rw [List.filter_eq_nil_iff]
          intro a ha
          have hgt : t < a.timestamp := by
            rcases List.mem_cons.mp ha with h1 | h1
            · subst h1; omega
            · have := hx a h1; omega
          simp only [beq_iff_eq]
          omega
        simp [List.filter_cons, het, hnone]
      · simp [List.filter_cons, het]
    · rw [if_neg hlt]
      rw [List.filter_cons, List.filter_cons]
      by_cases hxt : (x.timestamp == t) = true
      · simp [hxt, ih hxs]
      · simp [hxt, ih hxs]

theorem foldl_pqAdd_sorted_filter (es : List Ev) :
    ∀ q, q.Sorted (fun a b => a.timestamp ≤ b.timestamp) →
      (es.foldl pqAdd q).Sorted (fun a b => a.timestamp ≤ b.timestamp)
      ∧ ∀ t : Int, (es.foldl pqAdd q).filter (fun x => x.timestamp == t)
          = q.filter (fun x => x.timestamp == t) ++ es.filter (fun x => x.timestamp == t) := by
  induction es with
  | nil => intro q hq; exact ⟨hq, fun t => by simp⟩
  | cons e es ih =>
    intro q hq
    obtain ⟨hs, hf⟩ := ih (pqAdd q e) (sorted_pqAdd e hq)
    refine ⟨hs, ?_⟩
    intro t
    show ((es.foldl pqAdd (pqAdd q e)).filter fun x => x.timestamp == t) = _
    rw [hf t, filter_pqAdd t e hq, List.filter_cons]
    by_cases het : (e.timestamp == t) = true
    · simp [het, List.append_assoc]
    · simp [het]

/-- C6: building the queue from any sequence of adds yields a list
sorted by non-decreasing timestamp, in which the events of every fixed
timestamp appear exactly in their insertion order, and `removeMin`
returns the queue's front element; the repeated removeMin results are
therefore non-decreasing in timestamp with FIFO tie-breaking. -/
theorem C6_queue_ordering (es : List Ev) :
    (es.foldl pqAdd []).Sorted (fun a b => a.timestamp ≤ b.timestamp)
    ∧ (∀ t : Int, (es.foldl pqAdd []).filter (fun x => x.timestamp == t)
        = es.filter (fun x => x.timestamp == t))
    ∧ (∀ e rest, es.foldl pqAdd [] = e :: rest →
        removeMin (es.foldl pqAdd []) = some (e, rest))
    ∧ removeMin [] = none := by
  obtain ⟨hs, hf⟩ := foldl_pqAdd_sorted_filter es [] (by simp)
  refine ⟨hs, fun t => by simpa using hf t, ?_, rfl⟩
  intro e rest h
  rw [h]
  rfl

theorem C6_queue_ordering_witness :
    [Ev.cancellation 5 0, Ev.pickup 1 0 0].foldl pqAdd []
        = [Ev.pickup 1 0 0, Ev.cancellation 5 0]
    ∧ removeMin ([Ev.cancellation 5 0, Ev.pickup 1 0 0].foldl pqAdd [])
        = some (Ev.pickup 1 0 0, [Ev.cancellation 5 0]) :=
  ⟨by decide,
    (C6_queue_ordering [Ev.cancellation 5 0, Ev.pickup 1 0 0]).2.2.1 _ _ (by decide)⟩

/-! ### C10: ZeroDivisionError on runs without qualifying riders -/

theorem average_wait_time_error (m : List ActRec)
    (h : ∀ id : String, (actsOf m .rider id).length < 2) :
    average_wait_time m = .error () := by
  unfold average_wait_time
  have hq : (keysOf m .rider).filter (fun i => 2 ≤ (actsOf m .rider i).length) = [] := by
    rw [List.filter_eq_nil_iff]
    intro a ha
    simp only [decide_eq_true_eq]
    have := h a
    omega
  rw [hq]
  simp

theorem report_error_of_wait (m : List ActRec)
    (h : average_wait_time m = .error ()) : report m = .error () := by
  unfold report
  rw [h]
  rfl

theorem loop_empty_queue (fuel : Nat) (st : SimState) (h : st.queue = []) :
    loop fuel st = some st := by
  cases fuel with
  | zero => simp [loop, h]
  | succ n =>
      unfold loop
      rw [h]

/-- C10: when the simulation loop drains the queue and, at the end of
the run, no rider has at least two recorded activities, `run` yields a
ZeroDivisionError from `_average_wait_time` instead of a statistics
report; in particular running on an empty initial event list does. -/
theorem C10_run_zero_division :
    (∀ (fuel : Nat) (st stF : SimState), loop fuel st = some stF →
      (∀ id : String, (actsOf stF.monitor .rider id).length < 2) →
      runSim fuel st = some (Except.error ()))
    ∧ (∀ fuel : Nat, runSim fuel (initState [] [] []) = some (Except.error ())) := by
  have hmain : ∀ (fuel : Nat) (st stF : SimState), loop fuel st = some stF →
      (∀ id : String, (actsOf stF.monitor .rider id).length < 2) →
      runSim fuel st = some (Except.error ()) := by
    intro fuel st stF hl h
    unfold runSim
    rw [hl, Option.map_some', report_error_of_wait _ (average_wait_time_error _ h)]
  refine ⟨hmain, ?_⟩
  intro fuel
  refine hmain fuel _ _ (loop_empty_queue fuel _ rfl) ?_
  intro id
  simp [actsOf, initState]

theorem C10_run_zero_division_witness :
    runSim 0 (initState [] [] []) = some (Except.error ()) :=
  C10_run_zero_division.1 0 (initState [] [] []) (initState [] [] [])
    (loop_empty_queue 0 _ rfl) (fun id => by simp [actsOf, initState])

/-! ### C2: end-to-end scenario B -/

/-- Scenario B of the spec: DriverRequest for Sam (location (1,1),
speed 2) at t=0, then RiderRequest for xyz (origin (1,1), destination
(6,6), patience 4) at t=1. -/
def sB0 : SimState :=
  initState [⟨"xyz", ⟨1, 1⟩, ⟨6, 6⟩, 4, .waiting⟩]
    [⟨"Sam", some ⟨1, 1⟩, 2, none, true⟩]
    [.driverRequest 0 0, .riderRequest 1 0]

/-- C2: in scenario B the RiderRequest at t=1 produces exactly a Pickup
at t=1 and a Cancellation at t=5; the Pickup is ahead of the
Cancellation in the queue and is applied first, moving rider xyz from
the waiting to the satisfied partition and marking it satisfied; the
Cancellation applied at t=5 then changes neither the rider partitions
nor the rider's status. -/
theorem C2_scenarioB :
    (doEvent (.riderRequest 1 0) (stepN 1 sB0)).2 = [.pickup 1 0 0, .cancellation 5 0]
    ∧ (stepN 2 sB0).queue = [.pickup 1 0 0, .cancellation 5 0]
    ∧ (stepN 2 sB0).waiting = [0]
    ∧ (stepN 3 sB0).waiting = []
    ∧ (stepN 3 sB0).satisfied = [0]
    ∧ (getRider (stepN 3 sB0) 0).status = .satisfied
    ∧ (stepN 3 sB0).queue = [.cancellation 5 0, .dropoff 6 0 0]
    ∧ (stepN 4 sB0).waiting = (stepN 3 sB0).waiting
    ∧ (stepN 4 sB0).cancelled = (stepN 3 sB0).cancelled
    ∧ (stepN 4 sB0).satisfied = (stepN 3 sB0).satisfied
    ∧ getRider (stepN 4 sB0) 0 = getRider (stepN 3 sB0) 0 := by
  decide

/-! ### C3: partition exclusivity along runs -/

/-- The rider referenced by an event, if any. -/
def evRid? : Ev → Option Nat
  | .riderRequest _ rid => some rid
  | .cancellation _ rid => some rid
  | .pickup _ rid _ => some rid
  | .dropoff _ rid _ => some rid
  | .driverRequest _ _ => none

/-- The rider of a RiderRequest event, if the event is one. -/
def rrId? : Ev → Option Nat
  | .riderRequest _ rid => some rid
  | _ => none

/-- The riders with a pending RiderRequest in the queue. -/
def queueRR (q : List Ev) : List Nat :=
  q.filterMap rrId?

/-- All riders referenced by queued events. -/
def queueRiders (q : List Ev) : List Nat :=
  q.filterMap evRid?

/-- Every rider object id the run can still touch: partition members
and riders referenced from the queue. -/
def mentionedRiders (st : SimState) : List Nat :=
  st.waiting ++ st.cancelled ++ st.satisfied ++ queueRiders st.queue

/-- The reachability invariant justifying partition exclusivity:
waiting has no duplicates, the three rider partitions are pairwise
disjoint, pending RiderRequests are for pairwise distinct riders not
yet in any partition (each rider object is requested once, as
`create_event_list` builds one fresh Rider per input line), and
reachable rider objects have pairwise distinct identifiers (the spec
declares rider identifiers unique). -/
def Inv (st : SimState) : Prop :=
  st.waiting.Nodup
  ∧ (∀ r ∈ st.waiting, r ∉ st.cancelled)
  ∧ (∀ r ∈ st.waiting, r ∉ st.satisfied)
  ∧ (∀ r ∈ st.cancelled, r ∉ st.satisfied)
  ∧ (queueRR st.queue).Nodup
  ∧ (∀ r ∈ queueRR st.queue, r ∉ st.waiting ∧ r ∉ st.cancelled ∧ r ∉ st.satisfied)
  ∧ (∀ a ∈ mentionedRiders st, ∀ b ∈ mentionedRiders st, a ≠ b →
      (getRider st a).identifier ≠ (getRider st b).identifier)

theorem mentioned_of_waiting (st : SimState) {r : Nat} (h : r ∈ st.waiting) :
    r ∈ mentionedRiders st := by
  unfold mentionedRiders
  simp [h]

theorem mentioned_of_cancelled (st : SimState) {r : Nat} (h : r ∈ st.cancelled) :
    r ∈ mentionedRiders st := by
  unfold mentionedRiders
  simp [h]

theorem mentioned_of_satisfied (st : SimState) {r : Nat} (h : r ∈ st.satisfied) :
    r ∈ mentionedRiders st := by
  unfold mentionedRiders
  simp [h]

theorem mentioned_of_queue (st : SimState) {r : Nat} (h : r ∈ queueRiders st.queue) :
    r ∈ mentionedRiders st := by
  unfold mentionedRiders
  simp [h]

theorem queueRiders_of_ev {q : List Ev} {e : Ev} {r : Nat}
    (he : e ∈ q) (hr : evRid? e = some r) : r ∈ queueRiders q :=
  List.mem_filterMap.mpr ⟨e, he, hr⟩

theorem getRider_setRiderStatus_identifier (st : SimState) (rid : Nat) (s : RStatus) (a : Nat) :
    (getRider (setRiderStatus st rid s) a).identifier = (getRider st a).identifier := by
  unfold setRiderStatus getRider
  dsimp only
  rw [List.getD_eq_getElem?_getD, List.getD_eq_getElem?_getD, List.getElem?_set]
  by_cases h : rid = a
  · subst h
    by_cases h2 : rid < st.riders.length
    · simp [h2, List.getD_eq_getElem?_getD]
    · simp [h2, List.getD_eq_getElem?_getD, List.getElem?_eq_none (le_of_not_lt h2)]
  · simp [h]

theorem rider_beq_iff (st : SimState) {a b : Nat}
    (hid : a ≠ b → (getRider st a).identifier ≠ (getRider st b).identifier) :
    ((getRider st a == getRider st b) = true) ↔ a = b := by
  constructor
  · intro h
    by_contra hne
    exact hid hne (congrArg Rider.identifier (beq_iff_eq.mp h))
  · intro h
    subst h
    exact beq_iff_eq.mpr rfl

theorem any_beq_iff_mem (st : SimState) (l : List Nat) (rid : Nat)
    (h : ∀ r' ∈ l, ((getRider st r' == getRider st rid) = true) ↔ r' = rid) :
    (l.any (fun r' => getRider st r' == getRider st rid) = true) ↔ rid ∈ l := by
  rw [List.any_eq_true]
  constructor
  · rintro ⟨x, hx, hpx⟩
    have hxe := (h x hx).mp hpx
    subst hxe
    exact hx
  · intro hm
    exact ⟨rid, hm, (h rid hm).mpr rfl⟩

theorem foldl_pqAdd_perm : ∀ (evs q : List Ev), (evs.foldl pqAdd q).Perm (evs ++ q) := by
  intro evs
  induction evs with
  | nil => intro q; simp
  | cons e evs ih =>
    intro q
    have h1 : ((e :: evs).foldl pqAdd q) = evs.foldl pqAdd (pqAdd q e) := rfl
    rw [h1, List.cons_append]
    exact ((ih (pqAdd q e)).trans
      ((List.Perm.append_left evs (pqAdd_perm q e)).trans List.perm_middle))

theorem queueRR_newqueue (evs rest : List Ev) :
    (queueRR (evs.foldl pqAdd rest)).Perm (queueRR evs ++ queueRR rest) := by
  unfold queueRR
  have := List.Perm.filterMap rrId? (foldl_pqAdd_perm evs rest)
  rwa [List.filterMap_append] at this

theorem queueRiders_newqueue (evs rest : List Ev) :
    (queueRiders (evs.foldl pqAdd rest)).Perm (queueRiders evs ++ queueRiders rest) := by
  unfold queueRiders
  have := List.Perm.filterMap evRid? (foldl_pqAdd_perm evs rest)
  rwa [List.filterMap_append] at this

theorem cancel_ride_not_mem (st : SimState) (rid : Nat)
    (h : ∀ r' ∈ st.waiting, (getRider st r' == getRider st rid) = false) :
    cancel_ride st rid = st := by
  unfold cancel_ride
  rw [List.findIdx?_eq_none_iff.mpr h]

theorem end_successful_ride_not_mem (st : SimState) (rid : Nat)
    (h : ∀ r' ∈ st.waiting, (getRider st r' == getRider st rid) = false) :
    end_successful_ride st rid = st := by
  unfold end_successful_ride
  rw [List.findIdx?_eq_none_iff.mpr h]

theorem all_beq_false_of_not_mem (st : SimState) (l : List Nat) (rid : Nat)
    (hpred : ∀ r' ∈ l, ((getRider st r' == getRider st rid) = true) ↔ r' = rid)
    (hnm : rid ∉ l) :
    ∀ r' ∈ l, (getRider st r' == getRider st rid) = false := by
  intro r' hr'
  rw [Bool.eq_false_iff]
  intro htrue
  exact hnm (((hpred r' hr').mp htrue) ▸ hr')

theorem cancel_ride_mem (st : SimState) (rid : Nat)
    (hpred : ∀ r' ∈ st.waiting, ((getRider st r' == getRider st rid) = true) ↔ r' = rid)
    (hmem : rid ∈ st.waiting) :
    ∃ l₁ l₂, st.waiting = l₁ ++ rid :: l₂ ∧ rid ∉ l₁
      ∧ (cancel_ride st rid).waiting = l₁ ++ l₂
      ∧ (cancel_ride st rid).cancelled = st.cancelled ++ [rid] := by
  cases hfi : st.waiting.findIdx? (fun r' => getRider st r' == getRider st rid) with
  | none =>
      exact absurd ((hpred rid hmem).mpr rfl)
        (by rw [List.findIdx?_eq_none_iff.mp hfi rid hmem]; exact Bool.false_ne_true)
  | some j =>
      obtain ⟨l₁, x, l₂, hw, hlen, hx, hfa⟩ := findIdx?_decomp _ _ 0 j hfi
      have hxr : x = rid := by
        refine (hpred x ?_).mp hx
        rw [hw]
        exact List.mem_append.mpr (Or.inr (List.mem_cons_self x l₂))
      rw [hxr] at hw
      have hnl : rid ∉ l₁ := by
        intro hmem1
        have hxx := hfa rid hmem1
        rw [(hpred rid (by rw [hw]; exact List.mem_append.mpr (Or.inl hmem1))).mpr rfl] at hxx
        exact Bool.noConfusion hxx
      have hcr : cancel_ride st rid =
          { st with waiting := st.waiting.eraseIdx j, cancelled := st.cancelled ++ [rid] } := by
        unfold cancel_ride
        rw [hfi]
      have hj : j = l₁.length := by omega
      refine ⟨l₁, l₂, hw, hnl, ?_, by rw [hcr]⟩
      rw [hcr]
      show st.waiting.eraseIdx j = l₁ ++ l₂
      rw [hw, hj, eraseIdx_append_cons]

theorem end_successful_ride_mem (st : SimState) (rid : Nat)
    (hpred : ∀ r' ∈ st.waiting, ((getRider st r' == getRider st rid) = true) ↔ r' = rid)
    (hmem : rid ∈ st.waiting) :
    ∃ l₁ l₂, st.waiting = l₁ ++ rid :: l₂ ∧ rid ∉ l₁
      ∧ (end_successful_ride st rid).waiting = l₁ ++ l₂
      ∧ (end_successful_ride st rid).satisfied = st.satisfied ++ [rid] := by
  cases hfi : st.waiting.findIdx? (fun r' => getRider st r' == getRider st rid) with
  | none =>
      exact absurd ((hpred rid hmem).mpr rfl)
        (by rw [List.findIdx?_eq_none_iff.mp hfi rid hmem]; exact Bool.false_ne_true)
  | some j =>
      obtain ⟨l₁, x, l₂, hw, hlen, hx, hfa⟩ := findIdx?_decomp _ _ 0 j hfi
      have hxr : x = rid := by
        refine (hpred x ?_).mp hx
        rw [hw]
        exact List.mem_append.mpr (Or.inr (List.mem_cons_self x l₂))
      rw [hxr] at hw
      have hnl : rid ∉ l₁ := by
        intro hmem1
        have hxx := hfa rid hmem1
        rw [(hpred rid (by rw [hw]; exact List.mem_append.mpr (Or.inl hmem1))).mpr rfl] at hxx
        exact Bool.noConfusion hxx
      have hcr : end_successful_ride st rid =
          { st with waiting := st.waiting.eraseIdx j, satisfied := st.satisfied ++ [rid] } := by
        unfold end_successful_ride
        rw [hfi]
      have hj : j = l₁.length := by omega
      refine ⟨l₁, l₂, hw, hnl, ?_, by rw [hcr]⟩
      rw [hcr]
      show st.waiting.eraseIdx j = l₁ ++ l₂
      rw [hw, hj, eraseIdx_append_cons]

theorem request_rider_some_mem (st : SimState) (did r : Nat) :
    (request_rider st did).2 = some r → r ∈ st.waiting := by
  unfold request_rider
  dsimp only
  cases hw : (register_driver st did).waiting with
  | nil => intro h; simp at h
  | cons a l =>
      intro h
      have hra : a = r := by simpa using h
      subst hra
      have hfe : (register_driver st did).waiting = st.waiting :=
        (register_driver_fields st did).2.2.1
      rw [← hfe, hw]
      exact List.mem_cons_self a l

@[simp] theorem start_drive_riders (s : SimState) (did loc) : (start_drive s did loc).1.riders = s.riders := rfl
@[simp] theorem start_drive_waiting (s : SimState) (did loc) : (start_drive s did loc).1.waiting = s.waiting := rfl
@[simp] theorem start_drive_cancelled (s : SimState) (did loc) : (start_drive s did loc).1.cancelled = s.cancelled := rfl
@[simp] theorem start_drive_satisfied (s : SimState) (did loc) : (start_drive s did loc).1.satisfied = s.satisfied := rfl
@[simp] theorem start_drive_queue (s : SimState) (did loc) : (start_drive s did loc).1.queue = s.queue := rfl
@[simp] theorem getRider_start_drive (s : SimState) (did loc r) :
    getRider (start_drive s did loc).1 r = getRider s r := rfl
@[simp] theorem start_ride_riders (s : SimState) (did rid) : (start_ride s did rid).1.riders = s.riders := rfl
@[simp] theorem start_ride_waiting (s : SimState) (did rid) : (start_ride s did rid).1.waiting = s.waiting := rfl
@[simp] theorem start_ride_cancelled (s : SimState) (did rid) : (start_ride s did rid).1.cancelled = s.cancelled := rfl
@[simp] theorem start_ride_satisfied (s : SimState) (did rid) : (start_ride s did rid).1.satisfied = s.satisfied := rfl
@[simp] theorem start_ride_queue (s : SimState) (did rid) : (start_ride s did rid).1.queue = s.queue := rfl
@[simp] theorem getRider_start_ride (s : SimState) (did rid r) :
    getRider (start_ride s did rid).1 r = getRider s r := rfl
@[simp] theorem setRiderStatus_riders (st : SimState) (rid s) :
    (setRiderStatus st rid s).riders = st.riders.set rid { getRider st rid with status := s } := rfl

theorem request_driver_fst (st : SimState) (rid : Nat) :
    (request_driver st rid).1 = { st with waiting := st.waiting ++ [rid] } := by
  rw [request_driver_eq]

@[simp] theorem request_driver_riders (st : SimState) (rid) :
    (request_driver st rid).1.riders = st.riders := by rw [request_driver_fst]
@[simp] theorem request_driver_waiting (st : SimState) (rid) :
    (request_driver st rid).1.waiting = st.waiting ++ [rid] := by rw [request_driver_fst]
@[simp] theorem request_driver_cancelled (st : SimState) (rid) :
    (request_driver st rid).1.cancelled = st.cancelled := by rw [request_driver_fst]
@[simp] theorem request_driver_satisfied (st : SimState) (rid) :
    (request_driver st rid).1.satisfied = st.satisfied := by rw [request_driver_fst]
@[simp] theorem request_driver_queue (st : SimState) (rid) :
    (request_driver st rid).1.queue = st.queue := by rw [request_driver_fst]
@[simp] theorem getRider_request_driver (st : SimState) (rid r) :
    getRider (request_driver st rid).1 r = getRider st r := by
  rw [request_driver_fst]
  rfl

@[simp] theorem request_rider_riders (st : SimState) (did) :
    (request_rider st did).1.riders = st.riders := by
  rw [request_rider_fst]; exact (register_driver_fields st did).1
@[simp] theorem request_rider_waiting (st : SimState) (did) :
    (request_rider st did).1.waiting = st.waiting := by
  rw [request_rider_fst]; exact (register_driver_fields st did).2.2.1
@[simp] theorem request_rider_cancelled (st : SimState) (did) :
    (request_rider st did).1.cancelled = st.cancelled := by
  rw [request_rider_fst]; exact (register_driver_fields st did).2.2.2.1
@[simp] theorem request_rider_satisfied (st : SimState) (did) :
    (request_rider st did).1.satisfied = st.satisfied := by
  rw [request_rider_fst]; exact (register_driver_fields st did).2.2.2.2.1
@[simp] theorem request_rider_queue (st : SimState) (did) :
    (request_rider st did).1.queue = st.queue := by
  rw [request_rider_fst]; exact (register_driver_fields st did).2.2.2.2.2
@[simp] theorem getRider_request_rider (st : SimState) (did r) :
    getRider (request_rider st did).1 r = getRider st r :=
  getRider_congr (by simp) r

/-! Per-event characterizations of `doEvent`, as far as the rider
partitions, the rider heap and the spawned events are concerned. -/

theorem doEvent_riderRequest_core (st : SimState) (t : Int) (rid : Nat) :
    (doEvent (.riderRequest t rid) st).1.riders = st.riders
    ∧ (doEvent (.riderRequest t rid) st).1.waiting = st.waiting ++ [rid]
    ∧ (doEvent (.riderRequest t rid) st).1.cancelled = st.cancelled
    ∧ (doEvent (.riderRequest t rid) st).1.satisfied = st.satisfied
    ∧ queueRR (doEvent (.riderRequest t rid) st).2 = []
    ∧ (∀ r ∈ queueRiders (doEvent (.riderRequest t rid) st).2, r = rid) := by
  unfold doEvent
  dsimp only
  cases hp : (request_driver (notify st t .rider .request (getRider st rid).identifier
      (some (getRider st rid).origin)) rid).2 with
  | none =>
      refine ⟨by simp, by simp, by simp, by simp, rfl, ?_⟩
      intro r hr
      simpa [queueRiders, evRid?] using hr
  | some did =>
      refine ⟨by simp, by simp, by simp, by simp, rfl, ?_⟩
      intro r hr
      rcases (by simpa [queueRiders, evRid?] using hr : r = rid ∨ r = rid) with h | h <;> exact h

theorem doEvent_driverRequest_core (st : SimState) (t : Int) (did : Nat) :
    (doEvent (.driverRequest t did) st).1.riders = st.riders
    ∧ (doEvent (.driverRequest t did) st).1.waiting = st.waiting
    ∧ (doEvent (.driverRequest t did) st).1.cancelled = st.cancelled
    ∧ (doEvent (.driverRequest t did) st).1.satisfied = st.satisfied
    ∧ queueRR (doEvent (.driverRequest t did) st).2 = []
    ∧ (∀ r ∈ queueRiders (doEvent (.driverRequest t did) st).2, r ∈ st.waiting) := by
  unfold doEvent
  dsimp only
  cases hp : (request_rider (notify st t .driver .request (getDriver st did).identifier
      (getDriver st did).location) did).2 with
  | none =>
      refine ⟨by simp, by simp, by simp, by simp, rfl, ?_⟩
      intro r hr
      simp [queueRiders] at hr
  | some rid =>
      have hmem : rid ∈ st.waiting := by
        have := request_rider_some_mem _ did rid hp
        simpa using this
      refine ⟨by simp, by simp, by simp, by simp, rfl, ?_⟩
      intro r hr
      have : r = rid := by simpa [queueRiders, evRid?] using hr
      exact this ▸ hmem

theorem doEvent_cancellation_sat (st : SimState) (t : Int) (rid : Nat)
    (h : st.satisfied.any (fun r' => getRider st r' == getRider st rid) = true) :
    doEvent (.cancellation t rid) st =
      (notify st t .rider .cancel (getRider st rid).identifier (some (getRider st rid).origin),
       []) := by
  unfold doEvent
  dsimp only
  rw [if_pos h]

theorem doEvent_cancellation_nosat (st : SimState) (t : Int) (rid : Nat)
    (h : st.satisfied.any (fun r' => getRider st r' == getRider st rid) = false) :
    ∃ s' : SimState,
      doEvent (.cancellation t rid) st = (cancel_ride s' rid, [])
      ∧ s'.riders = st.riders.set rid { getRider st rid with status := .cancelled }
      ∧ s'.waiting = st.waiting
      ∧ s'.cancelled = st.cancelled
      ∧ s'.satisfied = st.satisfied := by
  unfold doEvent
  dsimp only
  rw [if_neg (by rw [h]; exact Bool.false_ne_true)]
  exact ⟨_, rfl, by simp, by simp, by simp, by simp⟩

theorem doEvent_pickup_core_cancelled (st : SimState) (t : Int) (rid did : Nat)
    (h : st.cancelled.any (fun r' => getRider st r' == getRider st rid) = true) :
    (doEvent (.pickup t rid did) st).1.riders = st.riders
    ∧ (doEvent (.pickup t rid did) st).1.waiting = st.waiting
    ∧ (doEvent (.pickup t rid did) st).1.cancelled = st.cancelled
    ∧ (doEvent (.pickup t rid did) st).1.satisfied = st.satisfied
    ∧ (doEvent (.pickup t rid did) st).2 = [.driverRequest t did] := by
  unfold doEvent
  dsimp only
  rw [if_pos h]
  exact ⟨by simp, by simp, by simp, by simp, rfl⟩

theorem doEvent_pickup_core_active (st : SimState) (t : Int) (rid did : Nat)
    (h : st.cancelled.any (fun r' => getRider st r' == getRider st rid) = false) :
    ∃ (s' : SimState) (tt : Int),
      doEvent (.pickup t rid did) st = (end_successful_ride s' rid, [.dropoff tt rid did])
      ∧ s'.riders = st.riders.set rid { getRider st rid with status := .satisfied }
      ∧ s'.waiting = st.waiting
      ∧ s'.cancelled = st.cancelled
      ∧ s'.satisfied = st.satisfied := by
  unfold doEvent
  dsimp only
  rw [if_neg (by rw [h]; exact Bool.false_ne_true)]
  exact ⟨_, _, rfl, by simp, by simp, by simp, by simp⟩

theorem doEvent_dropoff_core (st : SimState) (t : Int) (rid did : Nat) :
    ∃ s' : SimState,
      doEvent (.dropoff t rid did) st = (end_successful_ride s' rid, [.driverRequest t did])
      ∧ s'.riders = st.riders
      ∧ s'.waiting = st.waiting
      ∧ s'.cancelled = st.cancelled
      ∧ s'.satisfied = st.satisfied := by
  unfold doEvent
  dsimp only
  exact ⟨_, rfl, by simp, by simp, by simp, by simp⟩

theorem queueRR_cons_rr {t : Int} {rid : Nat} {rest : List Ev} :
    queueRR (.riderRequest t rid :: rest) = rid :: queueRR rest := by
  simp [queueRR, rrId?, List.filterMap_cons]

theorem queueRR_cons_none {e : Ev} {rest : List Ev} (h : rrId? e = none) :
    queueRR (e :: rest) = queueRR rest := by
  simp [queueRR, List.filterMap_cons, h]

theorem queueRiders_cons_some {e : Ev} {rest : List Ev} {r : Nat} (h : evRid? e = some r) :
    queueRiders (e :: rest) = r :: queueRiders rest := by
  simp [queueRiders, List.filterMap_cons, h]

theorem queueRiders_cons_none {e : Ev} {rest : List Ev} (h : evRid? e = none) :
    queueRiders (e :: rest) = queueRiders rest := by
  simp [queueRiders, List.filterMap_cons, h]

theorem queueRR_NQ_iff (evs rest : List Ev) (h : queueRR evs = []) (r : Nat) :
    r ∈ queueRR (evs.foldl pqAdd rest) ↔ r ∈ queueRR rest := by
  rw [(queueRR_newqueue evs rest).mem_iff, h]
  simp

theorem queueRR_NQ_nodup (evs rest : List Ev) (h : queueRR evs = [])
    (hn : (queueRR rest).Nodup) : (queueRR (evs.foldl pqAdd rest)).Nodup := by
  rw [(queueRR_newqueue evs rest).nodup_iff, h]
  simpa

theorem queueRiders_NQ_mem {evs rest : List Ev} {r : Nat}
    (h : r ∈ queueRiders (evs.foldl pqAdd rest)) :
    r ∈ queueRiders evs ∨ r ∈ queueRiders rest :=
  List.mem_append.mp ((queueRiders_newqueue evs rest).mem_iff.mp h)

theorem mem_mentioned_iff (st : SimState) (x : Nat) :
    x ∈ mentionedRiders st ↔
      x ∈ st.waiting ∨ x ∈ st.cancelled ∨ x ∈ st.satisfied ∨ x ∈ queueRiders st.queue := by
  simp [mentionedRiders, or_assoc]

theorem head_rider_mentioned (st : SimState) {e : Ev} {rest : List Ev} {rid : Nat}
    (hq : st.queue = e :: rest) (h : evRid? e = some rid) : rid ∈ mentionedRiders st :=
  mentioned_of_queue st (queueRiders_of_ev (by rw [hq]; exact List.mem_cons_self e rest) h)

theorem queueRiders_rest_sub (st : SimState) {e : Ev} {rest : List Ev}
    (hq : st.queue = e :: rest) {r : Nat} (h : r ∈ queueRiders rest) :
    r ∈ queueRiders st.queue := by
  rw [hq]
  cases he : evRid? e with
  | none => rw [queueRiders_cons_none he]; exact h
  | some a => rw [queueRiders_cons_some he]; exact List.mem_cons_of_mem a h

theorem queueRR_rest_sub (st : SimState) {e : Ev} {rest : List Ev}
    (hq : st.queue = e :: rest) {r : Nat} (h : r ∈ queueRR rest) :
    r ∈ queueRR st.queue := by
  rw [hq]
  cases e with
  | riderRequest t rid => exact List.mem_cons_of_mem _ h
  | driverRequest t did => exact h
  | cancellation t rid => exact h
  | pickup t rid did => exact h
  | dropoff t rid did => exact h

theorem idsOK_transfer (st ST : SimState)
    (hids : ∀ a ∈ mentionedRiders st, ∀ b ∈ mentionedRiders st, a ≠ b →
      (getRider st a).identifier ≠ (getRider st b).identifier)
    (hsub : ∀ x ∈ mentionedRiders ST, x ∈ mentionedRiders st)
    (hid : ∀ x, (getRider ST x).identifier = (getRider st x).identifier) :
    ∀ a ∈ mentionedRiders ST, ∀ b ∈ mentionedRiders ST, a ≠ b →
      (getRider ST a).identifier ≠ (getRider ST b).identifier := by
  intro a ha b hb hne
  rw [hid a, hid b]
  exact hids a (hsub a ha) b (hsub b hb) hne

theorem ident_via_set (st : SimState) {S : SimState} (rid : Nat) (c : RStatus)
    (hr : S.riders = st.riders.set rid { getRider st rid with status := c }) (x : Nat) :
    (getRider S x).identifier = (getRider st x).identifier := by
  have h1 : getRider S x = getRider (setRiderStatus st rid c) x :=
    getRider_congr (by rw [hr, setRiderStatus_riders]) x
  rw [h1, getRider_setRiderStatus_identifier]

/-- Replace the queue field (the shape of every loop iteration's
result). -/
def withQueue (s : SimState) (q : List Ev) : SimState :=
  { s with queue := q }

@[simp] theorem withQueue_riders (s : SimState) (q) : (withQueue s q).riders = s.riders := rfl
@[simp] theorem withQueue_drivers (s : SimState) (q) : (withQueue s q).drivers = s.drivers := rfl
@[simp] theorem withQueue_waiting (s : SimState) (q) : (withQueue s q).waiting = s.waiting := rfl
@[simp] theorem withQueue_cancelled (s : SimState) (q) : (withQueue s q).cancelled = s.cancelled := rfl
@[simp] theorem withQueue_satisfied (s : SimState) (q) : (withQueue s q).satisfied = s.satisfied := rfl
@[simp] theorem withQueue_queue (s : SimState) (q) : (withQueue s q).queue = q := rfl
@[simp] theorem getRider_withQueue (s : SimState) (q) (r : Nat) :
    getRider (withQueue s q) r = getRider s r := rfl

theorem stepHead_eq (st : SimState) (e : Ev) (rest : List Ev) (h : st.queue = e :: rest) :
    stepHead st = withQueue (doEvent e st).1 ((doEvent e st).2.foldl pqAdd rest) := by
  unfold stepHead
  rw [h]
  rfl

theorem inv_case_riderRequest (st : SimState) (t : Int) (rid : Nat) (rest : List Ev)
    (hq : st.queue = .riderRequest t rid :: rest) (h : Inv st) :
    Inv (withQueue (doEvent (.riderRequest t rid) st).1
      ((doEvent (.riderRequest t rid) st).2.foldl pqAdd rest)) := by
  obtain ⟨hW, hWC, hWS, hCS, hQn, hQd, hIds⟩ := h
  obtain ⟨c1, c2, c3, c4, c5, c6⟩ := doEvent_riderRequest_core st t rid
  have hqrr : queueRR st.queue = rid :: queueRR rest := by rw [hq, queueRR_cons_rr]
  have hQn' : rid ∉ queueRR rest ∧ (queueRR rest).Nodup := by
    rw [hqrr] at hQn
    exact List.nodup_cons.mp hQn
  have hridp : rid ∉ st.waiting ∧ rid ∉ st.cancelled ∧ rid ∉ st.satisfied :=
    hQd rid (by rw [hqrr]; exact List.mem_cons_self _ _)
  have hridmen : rid ∈ mentionedRiders st := head_rider_mentioned st hq rfl
  unfold Inv
  simp only [withQueue_waiting, withQueue_cancelled, withQueue_satisfied, withQueue_queue]
  rw [c2, c3, c4]
  refine ⟨?_, ?_, ?_, hCS, ?_, ?_, ?_⟩
  · rw [List.nodup_append]
    refine ⟨hW, by simp, ?_⟩
    intro a ha hb
    rw [List.mem_singleton] at hb
    subst hb
    exact hridp.1 ha
  · intro r hr
    rcases List.mem_append.mp hr with h1 | h1
    · exact hWC r h1
    · rw [List.mem_singleton] at h1; subst h1; exact hridp.2.1
  · intro r hr
    rcases List.mem_append.mp hr with h1 | h1
    · exact hWS r h1
    · rw [List.mem_singleton] at h1; subst h1; exact hridp.2.2
  · exact queueRR_NQ_nodup _ rest c5 hQn'.2
  · intro r hr
    have hr' : r ∈ queueRR rest := (queueRR_NQ_iff _ rest c5 r).mp hr
    have hold := hQd r (queueRR_rest_sub st hq hr')
    have hrne : r ≠ rid := fun hx => hQn'.1 (hx ▸ hr')
    refine ⟨?_, hold.2.1, hold.2.2⟩
    intro hx
    rcases List.mem_append.mp hx with h1 | h1
    · exact hold.1 h1
    · rw [List.mem_singleton] at h1; exact hrne h1
  · refine idsOK_transfer st _ hIds ?_ ?_
    · intro x hx
      rw [mem_mentioned_iff] at hx
      simp only [withQueue_waiting, withQueue_cancelled, withQueue_satisfied,
        withQueue_queue] at hx
      rw [c2, c3, c4] at hx
      rcases hx with h1 | h1 | h1 | h1
      · rcases List.mem_append.mp h1 with h2 | h2
        · exact mentioned_of_waiting st h2
        · rw [List.mem_singleton] at h2; subst h2; exact hridmen
      · exact mentioned_of_cancelled st h1
      · exact mentioned_of_satisfied st h1
      · rcases queueRiders_NQ_mem h1 with h2 | h2
        · exact (c6 x h2) ▸ hridmen
        · exact mentioned_of_queue st (queueRiders_rest_sub st hq h2)
    · intro x
      rw [getRider_withQueue, getRider_congr c1 x]

/-- Invariant preservation for a step that leaves the rider partitions
untouched (up to a state `S` with equal partitions) and spawns only
events whose riders were already reachable. -/
theorem inv_frame_case (st : SimState) (rest : List Ev) (S : SimState) (evs : List Ev)
    (h : Inv st)
    (hident : ∀ x, (getRider S x).identifier = (getRider st x).identifier)
    (hw' : S.waiting = st.waiting) (hc' : S.cancelled = st.cancelled)
    (hs' : S.satisfied = st.satisfied)
    (hqRR : queueRR evs = [])
    (hqRid : ∀ r ∈ queueRiders evs, r ∈ mentionedRiders st)
    (hrestRR : ∀ r ∈ queueRR rest, r ∈ queueRR st.queue)
    (hrestRid : ∀ r ∈ queueRiders rest, r ∈ queueRiders st.queue)
    (hQn' : (queueRR rest).Nodup) :
    Inv (withQueue S (evs.foldl pqAdd rest)) := by
  obtain ⟨hW, hWC, hWS, hCS, hQn, hQd, hIds⟩ := h
  unfold Inv
  simp only [withQueue_waiting, withQueue_cancelled, withQueue_satisfied, withQueue_queue]
  rw [hw', hc', hs']
  refine ⟨hW, hWC, hWS, hCS, queueRR_NQ_nodup evs rest hqRR hQn', ?_, ?_⟩
  · intro r hrr
    exact hQd r (hrestRR r ((queueRR_NQ_iff evs rest hqRR r).mp hrr))
  · refine idsOK_transfer st _ hIds ?_ ?_
    · intro x hx
      rw [mem_mentioned_iff] at hx
      simp only [withQueue_waiting, withQueue_cancelled, withQueue_satisfied,
        withQueue_queue] at hx
      rw [hw', hc', hs'] at hx
      rcases hx with h1 | h1 | h1 | h1
      · exact mentioned_of_waiting st h1
      · exact mentioned_of_cancelled st h1
      · exact mentioned_of_satisfied st h1
      · rcases queueRiders_NQ_mem h1 with h2 | h2
        · exact hqRid x h2
        · exact mentioned_of_queue st (hrestRid x h2)
    · intro x
      rw [getRider_withQueue, hident x]

/-- Invariant preservation for a step that ends with
`end_successful_ride` on a rider `rid` (Pickup's active branch,
Dropoff), with `S` agreeing with `st` on the partitions and rider
identifiers. -/
theorem inv_satisfy_case (st : SimState) (rid : Nat) (rest : List Ev) (S : SimState)
    (evs : List Ev)
    (h : Inv st)
    (hident : ∀ x, (getRider S x).identifier = (getRider st x).identifier)
    (hw' : S.waiting = st.waiting) (hc' : S.cancelled = st.cancelled)
    (hs' : S.satisfied = st.satisfied)
    (hqRR : queueRR evs = [])
    (hqRid : ∀ r ∈ queueRiders evs, r = rid)
    (hridmen : rid ∈ mentionedRiders st)
    (hrestRR : ∀ r ∈ queueRR rest, r ∈ queueRR st.queue)
    (hrestRid : ∀ r ∈ queueRiders rest, r ∈ queueRiders st.queue)
    (hQn' : (queueRR rest).Nodup) :
    Inv (withQueue (end_successful_ride S rid) (evs.foldl pqAdd rest)) := by
  obtain ⟨hW, hWC, hWS, hCS, hQn, hQd, hIds⟩ := h
  have hpredW : ∀ r' ∈ S.waiting, ((getRider S r' == getRider S rid) = true) ↔ r' = rid := by
    intro r' hr'
    apply rider_beq_iff
    intro hne
    rw [hident r', hident rid]
    exact hIds r' (mentioned_of_waiting st (hw' ▸ hr')) rid hridmen hne
  have hESf := end_successful_ride_fields S rid
  by_cases hmem : rid ∈ st.waiting
  · obtain ⟨l₁, l₂, hwdec, hnl, hcw, hcsat⟩ :=
      end_successful_ride_mem S rid hpredW (by rw [hw']; exact hmem)
    have hwdec' : st.waiting = l₁ ++ rid :: l₂ := by rw [← hw']; exact hwdec
    have hmid := List.nodup_cons.mp (List.nodup_middle.mp (hwdec' ▸ hW))
    have hsubW : ∀ r ∈ l₁ ++ l₂, r ∈ st.waiting := by
      intro r hrr
      rw [hwdec']
      rcases List.mem_append.mp hrr with h1 | h1
      · exact List.mem_append.mpr (Or.inl h1)
      · exact List.mem_append.mpr (Or.inr (List.mem_cons_of_mem _ h1))
    unfold Inv
    simp only [withQueue_waiting, withQueue_cancelled, withQueue_satisfied, withQueue_queue]
    rw [hcw, hcsat, hESf.2.2.1, hc', hs']
    refine ⟨hmid.2, ?_, ?_, ?_, queueRR_NQ_nodup evs rest hqRR hQn', ?_, ?_⟩
    · intro r hrr
      exact hWC r (hsubW r hrr)
    · intro r hrr hsmem
      rcases List.mem_append.mp hsmem with h1 | h1
      · exact hWS r (hsubW r hrr) h1
      · rw [List.mem_singleton] at h1
        exact hmid.1 (h1 ▸ hrr)
    · intro c hcmem hsmem
      rcases List.mem_append.mp hsmem with h1 | h1
      · exact hCS c hcmem h1
      · rw [List.mem_singleton] at h1
        exact hWC rid hmem (h1 ▸ hcmem)
    · intro r hrr
      have hr' : r ∈ queueRR rest := (queueRR_NQ_iff evs rest hqRR r).mp hrr
      have hold := hQd r (hrestRR r hr')
      have hrne : r ≠ rid := fun hx => hold.1 (hx ▸ hmem)
      refine ⟨fun hx => hold.1 (hsubW r hx), hold.2.1, ?_⟩
      intro hx
      rcases List.mem_append.mp hx with h1 | h1
      · exact hold.2.2 h1
      · rw [List.mem_singleton] at h1
        exact hrne h1
    · refine idsOK_transfer st _ hIds ?_ ?_
      · intro x hx
        rw [mem_mentioned_iff] at hx
        simp only [withQueue_waiting, withQueue_cancelled, withQueue_satisfied,
          withQueue_queue] at hx
        rw [hcw, hcsat, hESf.2.2.1, hc', hs'] at hx
        rcases hx with h1 | h1 | h1 | h1
        · exact mentioned_of_waiting st (hsubW x h1)
        · exact mentioned_of_cancelled st h1
        · rcases List.mem_append.mp h1 with h2 | h2
          · exact mentioned_of_satisfied st h2
          · rw [List.mem_singleton] at h2
            exact h2 ▸ hridmen
        · rcases queueRiders_NQ_mem h1 with h2 | h2
          · exact (hqRid x h2) ▸ hridmen
          · exact mentioned_of_queue st (hrestRid x h2)
      · intro x
        rw [getRider_withQueue, getRider_congr hESf.1 x, hident x]
  · have hnone := end_successful_ride_not_mem S rid
      (all_beq_false_of_not_mem S S.waiting rid hpredW (by rw [hw']; exact hmem))
    rw [hnone]
    exact inv_frame_case st rest S evs ⟨hW, hWC, hWS, hCS, hQn, hQd, hIds⟩ hident hw' hc' hs'
      hqRR (fun r hr => (hqRid r hr) ▸ hridmen) hrestRR hrestRid hQn'

/-- Invariant preservation for a step that ends with `cancel_ride` on a
rider `rid` (Cancellation's not-yet-satisfied branch). -/
theorem inv_cancel_case (st : SimState) (rid : Nat) (rest : List Ev) (S : SimState)
    (evs : List Ev)
    (h : Inv st)
    (hident : ∀ x, (getRider S x).identifier = (getRider st x).identifier)
    (hw' : S.waiting = st.waiting) (hc' : S.cancelled = st.cancelled)
    (hs' : S.satisfied = st.satisfied)
    (hqRR : queueRR evs = [])
    (hqRid : ∀ r ∈ queueRiders evs, r = rid)
    (hridmen : rid ∈ mentionedRiders st)
    (hrestRR : ∀ r ∈ queueRR rest, r ∈ queueRR st.queue)
    (hrestRid : ∀ r ∈ queueRiders rest, r ∈ queueRiders st.queue)
    (hQn' : (queueRR rest).Nodup) :
    Inv (withQueue (cancel_ride S rid) (evs.foldl pqAdd rest)) := by
  obtain ⟨hW, hWC, hWS, hCS, hQn, hQd, hIds⟩ := h
  have hpredW : ∀ r' ∈ S.waiting, ((getRider S r' == getRider S rid) = true) ↔ r' = rid := by
    intro r' hr'
    apply rider_beq_iff
    intro hne
    rw [hident r', hident rid]
    exact hIds r' (mentioned_of_waiting st (hw' ▸ hr')) rid hridmen hne
  have hCRf := cancel_ride_fields S rid
  by_cases hmem : rid ∈ st.waiting
  · obtain ⟨l₁, l₂, hwdec, hnl, hcw, hccan⟩ :=
      cancel_ride_mem S rid hpredW (by rw [hw']; exact hmem)
    have hwdec' : st.waiting = l₁ ++ rid :: l₂ := by rw [← hw']; exact hwdec
    have hmid := List.nodup_cons.mp (List.nodup_middle.mp (hwdec' ▸ hW))
    have hsubW : ∀ r ∈ l₁ ++ l₂, r ∈ st.waiting := by
      intro r hrr
      rw [hwdec']
      rcases List.mem_append.mp hrr with h1 | h1
      · exact List.mem_append.mpr (Or.inl h1)
      · exact List.mem_append.mpr (Or.inr (List.mem_cons_of_mem _ h1))
    unfold Inv
    simp only [withQueue_waiting, withQueue_cancelled, withQueue_satisfied, withQueue_queue]
    rw [hcw, hccan, hCRf.2.2.1, hc', hs']
    refine ⟨hmid.2, ?_, ?_, ?_, queueRR_NQ_nodup evs rest hqRR hQn', ?_, ?_⟩
    · intro r hrr hcmem
      rcases List.mem_append.mp hcmem with h1 | h1
      · exact hWC r (hsubW r hrr) h1
      · rw [List.mem_singleton] at h1
        exact hmid.1 (h1 ▸ hrr)
    · intro r hrr
      exact hWS r (hsubW r hrr)
    · intro c hcmem
      rcases List.mem_append.mp hcmem with h1 | h1
      · exact hCS c h1
      · rw [List.mem_singleton] at h1
        exact h1 ▸ (hWS rid hmem)
    · intro r hrr
      have hr' : r ∈ queueRR rest := (queueRR_NQ_iff evs rest hqRR r).mp hrr
      have hold := hQd r (hrestRR r hr')
      have hrne : r ≠ rid := fun hx => hold.1 (hx ▸ hmem)
      refine ⟨fun hx => hold.1 (hsubW r hx), ?_, hold.2.2⟩
      intro hx
      rcases List.mem_append.mp hx with h1 | h1
      · exact hold.2.1 h1
      · rw [List.mem_singleton] at h1
        exact hrne h1
    · refine idsOK_transfer st _ hIds ?_ ?_
      · intro x hx
        rw [mem_mentioned_iff] at hx
        simp only [withQueue_waiting, withQueue_cancelled, withQueue_satisfied,
          withQueue_queue] at hx
        rw [hcw, hccan, hCRf.2.2.1, hc', hs'] at hx
        rcases hx with h1 | h1 | h1 | h1
        · exact mentioned_of_waiting st (hsubW x h1)
        · rcases List.mem_append.mp h1 with h2 | h2
          · exact mentioned_of_cancelled st h2
          · rw [List.mem_singleton] at h2
            exact h2 ▸ hridmen
        · exact mentioned_of_satisfied st h1
        · rcases queueRiders_NQ_mem h1 with h2 | h2
          · exact (hqRid x h2) ▸ hridmen
          · exact mentioned_of_queue st (hrestRid x h2)
      · intro x
        rw [getRider_withQueue, getRider_congr hCRf.1 x, hident x]
  · have hnone := cancel_ride_not_mem S rid
      (all_beq_false_of_not_mem S S.waiting rid hpredW (by rw [hw']; exact hmem))
    rw [hnone]
    exact inv_frame_case st rest S evs ⟨hW, hWC, hWS, hCS, hQn, hQd, hIds⟩ hident hw' hc' hs'
      hqRR (fun r hr => (hqRid r hr) ▸ hridmen) hrestRR hrestRid hQn'

theorem inv_case_driverRequest (st : SimState) (t : Int) (did : Nat) (rest : List Ev)
    (hq : st.queue = .driverRequest t did :: rest) (h : Inv st) :
    Inv (withQueue (doEvent (.driverRequest t did) st).1
      ((doEvent (.driverRequest t did) st).2.foldl pqAdd rest)) := by
  obtain ⟨c1, c2, c3, c4, c5, c6⟩ := doEvent_driverRequest_core st t did
  have hQnq := h.2.2.2.2.1
  rw [hq] at hQnq
  exact inv_frame_case st rest _ _ h (fun x => by rw [getRider_congr c1 x]) c2 c3 c4 c5
    (fun r hr => mentioned_of_waiting st (c6 r hr))
    (fun r hr => queueRR_rest_sub st hq hr)
    (fun r hr => queueRiders_rest_sub st hq hr) hQnq

theorem inv_stepHead (st : SimState) (h : Inv st) : Inv (stepHead st) := by
  cases hq : st.queue with
  | nil =>
      unfold stepHead
      rw [hq]
      exact h
  | cons e rest =>
      rw [stepHead_eq st e rest hq]
      have hQnq := h.2.2.2.2.1
      rw [hq] at hQnq
      cases e with
      | riderRequest t rid => exact inv_case_riderRequest st t rid rest hq h
      | driverRequest t did => exact inv_case_driverRequest st t did rest hq h
      | cancellation t rid =>
          by_cases hsat : st.satisfied.any (fun r' => getRider st r' == getRider st rid) = true
          · rw [doEvent_cancellation_sat st t rid hsat]
            dsimp only
            exact inv_frame_case st rest _ [] h (fun x => by rw [getRider_notify]) rfl rfl rfl
              rfl (fun r hr2 => absurd hr2 (List.not_mem_nil r))
              (fun r hr2 => queueRR_rest_sub st hq hr2)
              (fun r hr2 => queueRiders_rest_sub st hq hr2) hQnq
          · obtain ⟨s', heq, hr, hw', hc', hs'⟩ :=
              doEvent_cancellation_nosat st t rid (Bool.eq_false_iff.mpr hsat)
            rw [heq]
            dsimp only
            exact inv_cancel_case st rid rest s' [] h (ident_via_set st rid .cancelled hr)
              hw' hc' hs' rfl (fun r hr2 => absurd hr2 (List.not_mem_nil r))
              (head_rider_mentioned st hq rfl)
              (fun r hr2 => queueRR_rest_sub st hq hr2)
              (fun r hr2 => queueRiders_rest_sub st hq hr2) hQnq
      | pickup t rid did =>
          by_cases hcanc : st.cancelled.any (fun r' => getRider st r' == getRider st rid) = true
          · obtain ⟨c1, c2, c3, c4, c5⟩ := doEvent_pickup_core_cancelled st t rid did hcanc
            rw [c5]
            exact inv_frame_case st rest _ [.driverRequest t did] h
              (fun x => by rw [getRider_congr c1 x]) c2 c3 c4 rfl
              (fun r hr2 => by simp [queueRiders, evRid?] at hr2)
              (fun r hr2 => queueRR_rest_sub st hq hr2)
              (fun r hr2 => queueRiders_rest_sub st hq hr2) hQnq
          · obtain ⟨s', tt, heq, hr, hw', hc', hs'⟩ :=
              doEvent_pickup_core_active st t rid did (Bool.eq_false_iff.mpr hcanc)
            rw [heq]
            dsimp only
            exact inv_satisfy_case st rid rest s' [.dropoff tt rid did] h
              (ident_via_set st rid .satisfied hr) hw' hc' hs' rfl
              (fun r hr2 => by simpa [queueRiders, evRid?] using hr2)
              (head_rider_mentioned st hq rfl)
              (fun r hr2 => queueRR_rest_sub st hq hr2)
              (fun r hr2 => queueRiders_rest_sub st hq hr2) hQnq
      | dropoff t rid did =>
          obtain ⟨s', heq, hr, hw', hc', hs'⟩ := doEvent_dropoff_core st t rid did
          rw [heq]
          dsimp only
          exact inv_satisfy_case st rid rest s' [.driverRequest t did] h
            (fun x => by rw [getRider_congr hr x]) hw' hc' hs' rfl
            (fun r hr2 => by simp [queueRiders, evRid?] at hr2)
            (head_rider_mentioned st hq rfl)
            (fun r hr2 => queueRR_rest_sub st hq hr2)
            (fun r hr2 => queueRiders_rest_sub st hq hr2) hQnq

theorem inv_stepN : ∀ (n : Nat) (st : SimState), Inv st → Inv (stepN n st) := by
  intro n
  induction n with
  | zero => intro st h; exact h
  | succ n ih => intro st h; exact ih (stepHead st) (inv_stepHead st h)

theorem stepN_succ_out : ∀ (n : Nat) (st : SimState), stepN (n + 1) st = stepHead (stepN n st) := by
  intro n
  induction n with
  | zero => intro st; rfl
  | succ n ih => intro st; exact ih (stepHead st)

theorem cancel_ride_cancelled_mono (S : SimState) (rid : Nat) :
    ∃ tc, (cancel_ride S rid).cancelled = S.cancelled ++ tc := by
  unfold cancel_ride
  cases S.waiting.findIdx? (fun r' => getRider S r' == getRider S rid) with
  | none => exact ⟨[], by simp⟩
  | some j => exact ⟨[rid], rfl⟩

theorem end_successful_ride_satisfied_mono (S : SimState) (rid : Nat) :
    ∃ ts, (end_successful_ride S rid).satisfied = S.satisfied ++ ts := by
  unfold end_successful_ride
  cases S.waiting.findIdx? (fun r' => getRider S r' == getRider S rid) with
  | none => exact ⟨[], by simp⟩
  | some j => exact ⟨[rid], rfl⟩

/-- One loop iteration only ever appends to the cancelled and satisfied
partitions: no operation removes from them. -/
theorem stepHead_mono (st : SimState) :
    (∃ tc, (stepHead st).cancelled = st.cancelled ++ tc)
    ∧ (∃ ts, (stepHead st).satisfied = st.satisfied ++ ts) := by
  cases hq : st.queue with
  | nil =>
      unfold stepHead
      rw [hq]
      exact ⟨⟨[], by simp⟩, ⟨[], by simp⟩⟩
  | cons e rest =>
      rw [stepHead_eq st e rest hq]
      cases e with
      | riderRequest t rid =>
          obtain ⟨c1, c2, c3, c4, c5, c6⟩ := doEvent_riderRequest_core st t rid
          exact ⟨⟨[], by simp [c3]⟩, ⟨[], by simp [c4]⟩⟩
      | driverRequest t did =>
          obtain ⟨c1, c2, c3, c4, c5, c6⟩ := doEvent_driverRequest_core st t did
          exact ⟨⟨[], by simp [c3]⟩, ⟨[], by simp [c4]⟩⟩
      | cancellation t rid =>
          by_cases hsat : st.satisfied.any (fun r' => getRider st r' == getRider st rid) = true
          · rw [doEvent_cancellation_sat st t rid hsat]
            dsimp only
            exact ⟨⟨[], by simp⟩, ⟨[], by simp⟩⟩
          · obtain ⟨s', heq, hr, hw', hc', hs'⟩ :=
              doEvent_cancellation_nosat st t rid (Bool.eq_false_iff.mpr hsat)
            rw [heq]
            dsimp only
            obtain ⟨tc, htc⟩ := cancel_ride_cancelled_mono s' rid
            refine ⟨⟨tc, ?_⟩, ⟨[], ?_⟩⟩
            · rw [withQueue_cancelled, htc, hc']
            · rw [withQueue_satisfied, (cancel_ride_fields s' rid).2.2.1, hs']
              simp
      | pickup t rid did =>
          by_cases hcanc : st.cancelled.any (fun r' => getRider st r' == getRider st rid) = true
          · obtain ⟨c1, c2, c3, c4, c5⟩ := doEvent_pickup_core_cancelled st t rid did hcanc
            exact ⟨⟨[], by simp [c3]⟩, ⟨[], by simp [c4]⟩⟩
          · obtain ⟨s', tt, heq, hr, hw', hc', hs'⟩ :=
              doEvent_pickup_core_active st t rid did (Bool.eq_false_iff.mpr hcanc)
            rw [heq]
            dsimp only
            obtain ⟨ts, hts⟩ := end_successful_ride_satisfied_mono s' rid
            refine ⟨⟨[], ?_⟩, ⟨ts, ?_⟩⟩
            · rw [withQueue_cancelled, (end_successful_ride_fields s' rid).2.2.1, hc']
              simp
            · rw [withQueue_satisfied, hts, hs']
      | dropoff t rid did =>
          obtain ⟨s', heq, hr, hw', hc', hs'⟩ := doEvent_dropoff_core st t rid did
          rw [heq]
          dsimp only
          obtain ⟨ts, hts⟩ := end_successful_ride_satisfied_mono s' rid
          refine ⟨⟨[], ?_⟩, ⟨ts, ?_⟩⟩
          · rw [withQueue_cancelled, (end_successful_ride_fields s' rid).2.2.1, hc']
            simp
          · rw [withQueue_satisfied, hts, hs']

/-- A small reachable state: rider 0 waits with a pending Cancellation,
rider 1 is satisfied. -/
def c3st : SimState :=
  { riders := [⟨"a", ⟨0, 0⟩, ⟨1, 1⟩, 2, .waiting⟩, ⟨"b", ⟨2, 2⟩, ⟨3, 3⟩, 2, .satisfied⟩],
    drivers := [], waiting := [0], cancelled := [], satisfied := [1], idle := [], total := [],
    monitor := [], queue := [.cancellation 2 0] }

/-- C3: from any state satisfying the reachability invariant `Inv`
(pairwise-disjoint rider partitions, one pending request per rider,
unique rider identifiers — the discipline `create_event_list`
establishes), along every run of the simulation loop no rider is ever
in both the cancelled and the satisfied partition, each loop iteration
only appends to the cancelled and satisfied partitions (so a rider
that entered one never leaves it nor moves to the other), and
`cancel_ride` applied to a rider already in the satisfied partition
leaves the dispatcher state entirely unchanged. -/
theorem C3_partition_exclusivity (st : SimState) (h : Inv st) :
    (∀ (n : Nat) (rid : Nat),
      ¬ (rid ∈ (stepN n st).cancelled ∧ rid ∈ (stepN n st).satisfied))
    ∧ (∀ n : Nat, (∃ tc, (stepN (n + 1) st).cancelled = (stepN n st).cancelled ++ tc)
        ∧ (∃ ts, (stepN (n + 1) st).satisfied = (stepN n st).satisfied ++ ts))
    ∧ (∀ rid ∈ st.satisfied, cancel_ride st rid = st) := by
  refine ⟨?_, ?_, ?_⟩
  · intro n rid hcon
    exact (inv_stepN n st h).2.2.2.1 rid hcon.1 hcon.2
  · intro n
    rw [stepN_succ_out]
    exact stepHead_mono (stepN n st)
  · intro rid hmem
    obtain ⟨hW, hWC, hWS, hCS, hQn, hQd, hIds⟩ := h
    apply cancel_ride_not_mem
    intro r' hr'
    rw [Bool.eq_false_iff]
    intro htrue
    have hne : r' ≠ rid := fun hx => hWS r' hr' (hx ▸ hmem)
    exact hIds r' (mentioned_of_waiting st hr') rid (mentioned_of_satisfied st hmem) hne
      (congrArg Rider.identifier (beq_iff_eq.mp htrue))

theorem C3_partition_exclusivity_witness :
    Inv c3st
    ∧ ¬ (0 ∈ (stepN 1 c3st).cancelled ∧ 0 ∈ (stepN 1 c3st).satisfied)
    ∧ cancel_ride c3st 1 = c3st :=
  ⟨by unfold Inv; decide, (C3_partition_exclusivity c3st (by unfold Inv; decide)).1 1 0,
    (C3_partition_exclusivity c3st (by unfold Inv; decide)).2.2 1 (by decide)⟩

end RideSharing
